import Mathlib

/-!
Portfolio page script: a verification development.

A shallow embedding of `src/script.js` (navigation menu, typing animation,
about section and its stat counter, project cards, contact form,
testimonials, newsletter capture) together with theorems about the embedded
code.

Conventions of the embedding.

* A JavaScript string is the list of its UTF-16 code units; `length`,
  `substring`, `slice`, `split`, `trim` and the regular expression (which has
  no `u` flag) all work on code units.
* The page (DOM, local storage, pending timers) is an explicit record that a
  handler maps to the record after the handler has run.
* An element looked up behind an explicit `if (element)` guard in the source
  is an `Option`; an element the source dereferences unguarded is present.
-/

namespace Portfolio

/-! ## Strings -/

/-- One UTF-16 code unit. -/
abbrev CodeUnit := Nat

/-- A JavaScript string: its sequence of UTF-16 code units. -/
abbrev JSString := List CodeUnit

/-- UTF-16 encoding of one Unicode scalar value. -/
def utf16 (c : Char) : List CodeUnit :=
  if c.toNat < 0x10000 then [c.toNat]
  else [0xD800 + (c.toNat - 0x10000) / 0x400, 0xDC00 + (c.toNat - 0x10000) % 0x400]

/-- The JavaScript string denoted by a source literal. -/
def js (s : String) : JSString := s.toList.flatMap utf16

/-- ECMAScript `WhiteSpace` and `LineTerminator` code units: what
`String.prototype.trim` strips and what `\s` matches. -/
def isWhiteSpace (c : CodeUnit) : Bool :=
  c == 0x09 || c == 0x0A || c == 0x0B || c == 0x0C || c == 0x0D || c == 0x20 ||
  c == 0xA0 || c == 0x1680 || (0x2000 ≤ c && c ≤ 0x200A) || c == 0x2028 ||
  c == 0x2029 || c == 0x202F || c == 0x205F || c == 0x3000 || c == 0xFEFF

/-- Embeds `String.prototype.trim`. -/
def trim (s : JSString) : JSString :=
  ((s.dropWhile isWhiteSpace).reverse.dropWhile isWhiteSpace).reverse

/-! ## Regular expressions (the fragment used by the contact form) -/

/-- Regular expressions over code units. -/
inductive Regex where
  | never : Regex
  | empty : Regex
  | cls (p : CodeUnit → Bool) : Regex
  | cat (r s : Regex) : Regex
  | alt (r s : Regex) : Regex
  | star (r : Regex) : Regex

namespace Regex

/-- The quantifier `+`. -/
def plus (r : Regex) : Regex := cat r (star r)

/-- Does the expression accept the empty string? -/
def nullable : Regex → Bool
  | never => false
  | empty => true
  | cls _ => false
  | cat r s => r.nullable && s.nullable
  | alt r s => r.nullable || s.nullable
  | star _ => true

/-- Brzozowski derivative by one code unit. -/
def deriv : Regex → CodeUnit → Regex
  | never, _ => never
  | empty, _ => never
  | cls p, c => if p c then empty else never
  | cat r s, c =>
      if r.nullable then alt (cat (r.deriv c) s) (s.deriv c) else cat (r.deriv c) s
  | alt r s, c => alt (r.deriv c) (s.deriv c)
  | star r, c => cat (r.deriv c) (star r)

/-- Matching of a whole string: an expression anchored by `^` and `$`
(no `m` flag) applied with `RegExp.prototype.test`. -/
def test : Regex → JSString → Bool
  | r, [] => r.nullable
  | r, c :: cs => (r.deriv c).test cs

/-- Declarative meaning of an expression. -/
inductive Matches : Regex → JSString → Prop
  | empty : Matches Regex.empty []
  | cls {p : CodeUnit → Bool} {c : CodeUnit} : p c = true → Matches (Regex.cls p) [c]
  | cat {r s : Regex} {x y : JSString} :
      Matches r x → Matches s y → Matches (Regex.cat r s) (x ++ y)
  | altL {r s : Regex} {x : JSString} : Matches r x → Matches (Regex.alt r s) x
  | altR {r s : Regex} {x : JSString} : Matches s x → Matches (Regex.alt r s) x
  | starNil {r : Regex} : Matches (Regex.star r) []
  | starCons {r : Regex} {x y : JSString} :
      Matches r x → Matches (Regex.star r) y → Matches (Regex.star r) (x ++ y)

end Regex

/-- The class `[^\s@]`. -/
def notSpaceAt (c : CodeUnit) : Bool := !(isWhiteSpace c || c == 0x40)

/-- The expression `/^[^\s@]+@[^\s@]+\.[^\s@]+$/` of `validateForm`. -/
def emailRegex : Regex :=
  Regex.cat (Regex.plus (Regex.cls notSpaceAt))
    (Regex.cat (Regex.cls (fun c => c == 0x40))
      (Regex.cat (Regex.plus (Regex.cls notSpaceAt))
        (Regex.cat (Regex.cls (fun c => c == 0x2E))
          (Regex.plus (Regex.cls notSpaceAt)))))


/-! ## `encodeURIComponent` -/

/-- Code units that `encodeURIComponent` leaves as they are: ASCII letters,
digits and the marks `- _ . ! ~ * ' ( )`. -/
def isUriUnreserved (c : CodeUnit) : Bool :=
  (0x41 ≤ c && c ≤ 0x5A) || (0x61 ≤ c && c ≤ 0x7A) || (0x30 ≤ c && c ≤ 0x39) ||
  c == 0x2D || c == 0x5F || c == 0x2E || c == 0x21 || c == 0x7E || c == 0x2A ||
  c == 0x27 || c == 0x28 || c == 0x29

/-- UTF-8 octets of a code point. -/
def utf8 (cp : Nat) : List Nat :=
  if cp < 0x80 then [cp]
  else if cp < 0x800 then [0xC0 + cp / 0x40, 0x80 + cp % 0x40]
  else if cp < 0x10000 then [0xE0 + cp / 0x1000, 0x80 + cp / 0x40 % 0x40, 0x80 + cp % 0x40]
  else [0xF0 + cp / 0x40000, 0x80 + cp / 0x1000 % 0x40, 0x80 + cp / 0x40 % 0x40,
    0x80 + cp % 0x40]

/-- An upper-case hexadecimal digit. -/
def hexDigit (n : Nat) : CodeUnit := if n < 10 then 0x30 + n else 0x37 + n

/-- The escapes `%XX` of a list of octets. -/
def percentEncode (octets : List Nat) : JSString :=
  octets.flatMap fun b => [0x25, hexDigit (b / 16), hexDigit (b % 16)]

/-- The builtin `encodeURIComponent`; `none` is the `URIError` thrown at an
unpaired surrogate. -/
def encodeURIComponent : JSString → Option JSString
  | [] => some []
  | c :: rest =>
    if isUriUnreserved c then (encodeURIComponent rest).map (c :: ·)
    else if 0xDC00 ≤ c ∧ c ≤ 0xDFFF then none
    else if 0xD800 ≤ c ∧ c ≤ 0xDBFF then
      match rest with
      | [] => none
      | d :: rest2 =>
        if 0xDC00 ≤ d ∧ d ≤ 0xDFFF then
          (encodeURIComponent rest2).map
            (percentEncode (utf8 ((c - 0xD800) * 0x400 + (d - 0xDC00) + 0x10000)) ++ ·)
        else none
    else (encodeURIComponent rest).map (percentEncode (utf8 c) ++ ·)

/-! ## Contact form (`ContactAnimator`) -/

/-- An inline error element: its text and whether its class list holds
`show`. -/
structure ErrorElement where
  textContent : JSString
  shown : Bool
  deriving DecidableEq, Repr

/-- The three error element ids that `validateForm` uses. -/
inductive ErrorId where
  | nameError
  | emailError
  | messageError
  deriving DecidableEq, Repr

/-- What a pending timer of the contact form does when it fires. -/
inductive ContactTask where
  | openWhatsApp (url : JSString)
  | resetForm
  deriving DecidableEq, Repr

/-- How a handler ended. -/
inductive Completion where
  | returned
  | threwURIError
  deriving DecidableEq, Repr

/-- The part of the page the contact form reads and writes. -/
structure ContactPage where
  /-- Current values of the fields `name`, `email`, `message`. -/
  nameValue : JSString
  emailValue : JSString
  messageValue : JSString
  /-- Values the markup gives the fields: what `contactForm.reset()` restores. -/
  nameDefault : JSString
  emailDefault : JSString
  messageDefault : JSString
  /-- The elements `getElementById(errorId)` finds, if any. -/
  nameError : Option ErrorElement
  emailError : Option ErrorElement
  messageError : Option ErrorElement
  /-- Whether `this.successMessage`, if present, has class `show`. -/
  successMessage : Option Bool
  /-- Pending `setTimeout` calls, oldest first: delay in ms and task. -/
  timers : List (Nat × ContactTask)
  /-- URLs given to `window.open(url, '_blank')`, oldest first. -/
  opened : List JSString
  /-- Whether `preventDefault()` was called on the submit event. -/
  defaultPrevented : Bool
  deriving DecidableEq, Repr

namespace ContactPage

/-- The element `document.getElementById(errorId)`. -/
def getError (p : ContactPage) : ErrorId → Option ErrorElement
  | .nameError => p.nameError
  | .emailError => p.emailError
  | .messageError => p.messageError

/-- Replace the element with the given id. -/
def setError (p : ContactPage) (id : ErrorId) (e : ErrorElement) : ContactPage :=
  match id with
  | .nameError => { p with nameError := some e }
  | .emailError => { p with emailError := some e }
  | .messageError => { p with messageError := some e }

end ContactPage

namespace ContactAnimator

/-- Embeds `ContactAnimator.showError`. -/
def showError (p : ContactPage) (errorId : ErrorId) (message : JSString) : ContactPage :=
  match p.getError errorId with
  | some _ => p.setError errorId { textContent := message, shown := true }
  | none => p

/-- Embeds `ContactAnimator.hideError`. -/
def hideError (p : ContactPage) (errorId : ErrorId) : ContactPage :=
  match p.getError errorId with
  | some _ => p.setError errorId { textContent := [], shown := false }
  | none => p

/-- Embeds `ContactAnimator.showSuccessMessage`. -/
def showSuccessMessage (p : ContactPage) : ContactPage :=
  match p.successMessage with
  | some _ => { p with successMessage := some true }
  | none => p

/-- Embeds `ContactAnimator.hideSuccessMessage`. -/
def hideSuccessMessage (p : ContactPage) : ContactPage :=
  match p.successMessage with
  | some _ => { p with successMessage := some false }
  | none => p

/-- The name branch of `validateForm`. -/
def validateName (p : ContactPage) (name : JSString) (isValid : Bool) : Bool × ContactPage :=
  if name = [] then (false, showError p .nameError (js "Please enter your name"))
  else (isValid, hideError p .nameError)

/-- The email branch of `validateForm`. -/
def validateEmail (p : ContactPage) (email : JSString) (isValid : Bool) : Bool × ContactPage :=
  if email = [] then (false, showError p .emailError (js "Please enter your email"))
  else if !emailRegex.test email then
    (false, showError p .emailError (js "Please enter a valid email"))
  else (isValid, hideError p .emailError)

/-- The message branch of `validateForm`. -/
def validateMessage (p : ContactPage) (message : JSString) (isValid : Bool) :
    Bool × ContactPage :=
  if message = [] then (false, showError p .messageError (js "Please enter your message"))
  else if message.length < 10 then
    (false, showError p .messageError (js "Message must be at least 10 characters"))
  else (isValid, hideError p .messageError)

/-- Embeds `ContactAnimator.validateForm`: the returned flag and the page after the
three error elements were updated. -/
def validateForm (p : ContactPage) (name email message : JSString) : Bool × ContactPage :=
  let r1 := validateName p name true
  let r2 := validateEmail r1.2 email r1.1
  validateMessage r2.2 message r2.1

/-- The constant `whatsappNumber`. -/
def whatsappNumber : JSString := js "2348134260378"

/-- The template literal `whatsappURL`, given the three encoded fields. -/
def whatsappURL (name email message : JSString) : JSString :=
  js "https://wa.me/" ++ whatsappNumber ++ js "?text=" ++
    (js "*New Message from Portfolio*%0A%0A*Name:* " ++ name ++ js "%0A*Email:* " ++ email ++
      js "%0A*Message:*%0A" ++ message)

/-- Embeds `ContactAnimator.handleSubmit`. -/
def handleSubmit (p : ContactPage) : Completion × ContactPage :=
  let p0 := { p with defaultPrevented := true }
  let name := trim p0.nameValue
  let email := trim p0.emailValue
  let message := trim p0.messageValue
  let v := validateForm p0 name email message
  if !v.1 then (.returned, v.2)
  else
    match encodeURIComponent name, encodeURIComponent email, encodeURIComponent message with
    | some n, some e, some m =>
      let p1 := showSuccessMessage v.2
      (.returned, { p1 with timers := p1.timers ++ [(800, .openWhatsApp (whatsappURL n e m))] })
    | _, _, _ => (.threwURIError, v.2)

/-- The callback of a contact timer, run when the timer fires. -/
def runContactTask (p : ContactPage) : ContactTask → ContactPage
  | .openWhatsApp url =>
    { p with opened := p.opened ++ [url], timers := p.timers ++ [(3000, .resetForm)] }
  | .resetForm =>
    hideSuccessMessage
      { p with nameValue := p.nameDefault, emailValue := p.emailDefault,
               messageValue := p.messageDefault }

end ContactAnimator

/-- A page whose form holds name "Jo", email "a@b.com" and message "hello
there!", with all elements present and nothing pending. -/
def sampleContactPage : ContactPage where
  nameValue := js " Jo "
  emailValue := js "a@b.com"
  messageValue := js "hello there!\n"
  nameDefault := []
  emailDefault := []
  messageDefault := []
  nameError := some { textContent := js "Please enter your name", shown := true }
  emailError := some { textContent := [], shown := false }
  messageError := some { textContent := [], shown := false }
  successMessage := some false
  timers := []
  opened := []
  defaultPrevented := false

/-- Two contact pages agree on everything but the three error elements. -/
def ContactPage.sameOutsideErrors (p q : ContactPage) : Prop :=
  q.nameValue = p.nameValue ∧ q.emailValue = p.emailValue ∧ q.messageValue = p.messageValue ∧
  q.nameDefault = p.nameDefault ∧ q.emailDefault = p.emailDefault ∧
  q.messageDefault = p.messageDefault ∧ q.successMessage = p.successMessage ∧
  q.timers = p.timers ∧ q.opened = p.opened ∧ q.defaultPrevented = p.defaultPrevented

/-! ## Testimonials (`TestimonialsManager`) -/

/-- Upper-casing of one ASCII code unit; other code units are unchanged. -/
def asciiUpper (c : CodeUnit) : CodeUnit := if 0x61 ≤ c ∧ c ≤ 0x7A then c - 0x20 else c

/-- The builtin `String.prototype.toUpperCase`. Its Unicode case tables are
not part of the script, so the function is a parameter of the embedding,
known only on ASCII strings, where it upper-cases the letters `a` to `z`. -/
structure StringRuntime where
  toUpperCase : JSString → JSString
  toUpperCase_ascii : ∀ s : JSString, (∀ c ∈ s, c < 0x80) → toUpperCase s = s.map asciiUpper

/-- A runtime that upper-cases ASCII letters only. -/
def asciiRuntime : StringRuntime where
  toUpperCase := List.map asciiUpper
  toUpperCase_ascii := fun _ _ => rfl

/-- Splitting at every code unit that satisfies `p`: `String.prototype.split`
with a separator matching exactly one code unit. The empty string gives one
empty token. -/
def splitWhere (p : CodeUnit → Bool) : JSString → List JSString
  | [] => [[]]
  | c :: cs =>
    if p c then [] :: splitWhere p cs
    else
      match splitWhere p cs with
      | [] => [[c]]
      | t :: ts => (c :: t) :: ts

/-- Embeds `name.split(' ')`. -/
def splitSpace (name : JSString) : List JSString := splitWhere (fun c => c == 0x20) name

/-- Embeds `tokens.map(n => n[0]).join('')`: the first code unit of every token,
an empty token (whose `n[0]` is `undefined`) contributing nothing. -/
def joinFirsts (tokens : List JSString) : JSString :=
  tokens.flatMap fun n => n.head?.toList

namespace TestimonialsManager

/-- Embeds `TestimonialsManager.getInitials`. -/
def getInitials (rt : StringRuntime) (name : JSString) : JSString :=
  (rt.toUpperCase (joinFirsts (splitSpace name))).take 2

/-- The derivation of initials in the words of the specification: split on
white space, first character of each token, join, uppercase, truncate to 2. -/
def getInitialsSpec (rt : StringRuntime) (name : JSString) : JSString :=
  (rt.toUpperCase (joinFirsts (splitWhere isWhiteSpace name))).take 2

end TestimonialsManager

/-- One testimonial entry. -/
structure Testimonial where
  name : JSString
  role : JSString
  text : JSString
  image : JSString
  deriving DecidableEq, Repr

/-- The content of the `client-image` element of a card. -/
inductive ClientImage where
  | img (src alt : JSString)
  | initials (text : JSString)
  deriving DecidableEq, Repr

/-- A rendered card: the values interpolated into its markup. The animation
delay is the card index, in tenths of a second. -/
structure TestimonialCard where
  animationDelay : Nat
  text : JSString
  clientImage : ClientImage
  clientName : JSString
  clientRole : JSString
  deriving DecidableEq, Repr

/-- The four inputs of the add-testimonial form. -/
structure TestimonialForm where
  clientName : JSString
  clientRole : JSString
  clientImage : JSString
  testimonialText : JSString
  deriving DecidableEq, Repr

/-- The part of the page and of the manager object that the testimonials
code reads and writes. -/
structure TestimonialsPage where
  /-- The array parsed from local storage key `mr6ix_testimonials`, if the key is set. -/
  stored : Option (List Testimonial)
  /-- The array `this.defaultTestimonials`. -/
  defaultTestimonials : List Testimonial
  /-- The cards inside the carousel element. -/
  carousel : List TestimonialCard
  /-- Horizontal scroll offset the carousel was last sent to. -/
  carouselScrollLeft : Nat
  /-- Whether the toast has class `show`. -/
  toastShown : Bool
  /-- Delays (ms) of the pending timers that hide the toast. -/
  toastTimers : List Nat
  /-- Current values of the form inputs. -/
  form : TestimonialForm
  /-- Values the markup gives the inputs: what `form.reset()` restores. -/
  formDefault : TestimonialForm
  deriving DecidableEq, Repr

/-- The array literal assigned to `this.defaultTestimonials` by the constructor. -/
def builtinTestimonials : List Testimonial :=
  [ { name := js "Sarah Johnson"
      role := js "CEO, TechStart Inc."
      text := js "Working with Chris was an absolute pleasure. His attention to detail and creative solutions exceeded our expectations. The website he built for us not only looks stunning but performs flawlessly."
      image := js "./assets/img/Sandy taylor.jpg" },
    { name := js "Ifeoluwa Nasrat"
      role := js "Product Manager, Digital Solutions"
      text := js "Chris delivered our project ahead of schedule with exceptional quality. His expertise in frontend development and responsive design is truly impressive. Highly recommended!"
      image := js "./assets/img/nasrat.jpg" },
    { name := js "Michael Chen"
      role := js "Marketing Director, Creative Agency"
      text := js "The food ordering website Chris created for us has transformed our business. The WhatsApp integration works seamlessly, and our customers love the user-friendly interface."
      image := js "./assets/img/Michael-Cole-Fontayn.jpg" } ]

namespace TestimonialsManager

/-- Embeds `TestimonialsManager.createTestimonialCard`. -/
def createTestimonialCard (rt : StringRuntime) (testimonial : Testimonial) (index : Nat) :
    TestimonialCard :=
  let initials := getInitials rt testimonial.name
  { animationDelay := index
    text := testimonial.text
    clientImage :=
      if testimonial.image ≠ [] then ClientImage.img testimonial.image testimonial.name
      else ClientImage.initials initials
    clientName := testimonial.name
    clientRole := if testimonial.role ≠ [] then testimonial.role else js "Client" }

/-- Embeds `TestimonialsManager.renderTestimonials`: empty the carousel, then append
one card per entry, in order. -/
def renderTestimonials (rt : StringRuntime) (p : TestimonialsPage)
    (testimonials : List Testimonial) : TestimonialsPage :=
  testimonials.enum.foldl
    (fun q it => { q with carousel := q.carousel ++ [createTestimonialCard rt it.2 it.1] })
    { p with carousel := [] }

/-- Embeds `TestimonialsManager.loadTestimonials`. -/
def loadTestimonials (rt : StringRuntime) (p : TestimonialsPage) : TestimonialsPage :=
  match p.stored with
  | some testimonials => renderTestimonials rt p testimonials
  | none =>
    renderTestimonials rt { p with stored := some p.defaultTestimonials } p.defaultTestimonials

/-- The constructor followed by `init`: the default array is assigned, then
the testimonials are loaded (the submit listener that `init` also installs is
the function `handleSubmit` below). -/
def construct (rt : StringRuntime) (p : TestimonialsPage) : TestimonialsPage :=
  loadTestimonials rt { p with defaultTestimonials := builtinTestimonials }

/-- Embeds `TestimonialsManager.showToast`. -/
def showToast (p : TestimonialsPage) : TestimonialsPage :=
  { p with toastShown := true, toastTimers := p.toastTimers ++ [3000] }

/-- The entry `newTestimonial` that `handleSubmit` builds from the form. -/
def newTestimonial (form : TestimonialForm) : Testimonial :=
  { name := trim form.clientName
    role := if trim form.clientRole ≠ [] then trim form.clientRole else js "Client"
    image := trim form.clientImage
    text := trim form.testimonialText }

/-- Embeds `TestimonialsManager.handleSubmit`. When nothing is stored the array
that receives the new entry is `this.defaultTestimonials` itself. -/
def handleSubmit (rt : StringRuntime) (p : TestimonialsPage) : TestimonialsPage :=
  let name := trim p.form.clientName
  let text := trim p.form.testimonialText
  if name = [] ∨ text = [] then p
  else
    let entry := newTestimonial p.form
    let testimonials :=
      match p.stored with
      | some ts => entry :: ts
      | none => entry :: p.defaultTestimonials
    let p1 : TestimonialsPage :=
      match p.stored with
      | some _ => p
      | none => { p with defaultTestimonials := testimonials }
    let p2 := { p1 with stored := some testimonials }
    let p3 := renderTestimonials rt p2 testimonials
    let p4 := showToast p3
    let p5 := { p4 with form := p4.formDefault }
    { p5 with carouselScrollLeft := 0 }

end TestimonialsManager

/-- A page before the manager is constructed: nothing stored, an empty
carousel, an empty form. -/
def emptyTestimonialsPage : TestimonialsPage where
  stored := none
  defaultTestimonials := []
  carousel := []
  carouselScrollLeft := 0
  toastShown := false
  toastTimers := []
  form := { clientName := [], clientRole := [], clientImage := [], testimonialText := [] }
  formDefault := { clientName := [], clientRole := [], clientImage := [], testimonialText := [] }

/-- The page after the first load from empty storage, with the form filled
in as name "X" and text "Some testimonial text". -/
def seededPageWithX : TestimonialsPage :=
  { TestimonialsManager.construct asciiRuntime emptyTestimonialsPage with
    form := { clientName := js "X", clientRole := [], clientImage := [],
              testimonialText := js "Some testimonial text" } }

/-- The seeded page with a form whose name is only white space. -/
def seededPageBlankName : TestimonialsPage :=
  { TestimonialsManager.construct asciiRuntime emptyTestimonialsPage with
    form := { clientName := js "  \t", clientRole := js "CEO", clientImage := [],
              testimonialText := js "Some testimonial text" } }

/-! ## Newsletter capture (footer) -/

/-- The part of the page the newsletter form reads and writes. -/
structure NewsletterPage where
  /-- The array parsed from local storage key `mr6ix_subscribers`, if the key is set. -/
  subscribers : Option (List JSString)
  /-- Value of the email input of the form. -/
  emailInput : JSString
  /-- Whether `newsletterSuccess` has class `show`. -/
  successShown : Bool
  /-- Delays (ms) of the pending timers that hide the success message. -/
  hideTimers : List Nat
  /-- Whether `preventDefault()` was called on the submit event. -/
  defaultPrevented : Bool
  deriving DecidableEq, Repr

/-- The submit listener of `newsletterForm`. -/
def newsletterFormSubmit (p : NewsletterPage) : NewsletterPage :=
  let p0 := { p with defaultPrevented := true }
  let email := trim p0.emailInput
  if email ≠ [] then
    let subscribers := p0.subscribers.getD []
    let p1 :=
      if !(subscribers.contains email) then { p0 with subscribers := some (subscribers ++ [email]) }
      else p0
    { p1 with successShown := true, emailInput := [], hideTimers := p1.hideTimers ++ [4000] }
  else p0

/-- The visitor enters `raw` in the email input and submits the form. -/
def subscribe (p : NewsletterPage) (raw : JSString) : NewsletterPage :=
  newsletterFormSubmit { p with emailInput := raw }

/-- A page with nothing stored. -/
def emptyNewsletterPage : NewsletterPage where
  subscribers := none
  emailInput := []
  successShown := false
  hideTimers := []
  defaultPrevented := false

/-! ## Navigation menu -/

/-- The part of the page the navigation code reads and writes. -/
structure NavState where
  /-- Whether `nav` has class `active`. -/
  navActive : Bool
  /-- Whether `menuToggle` has class `active`. -/
  toggleActive : Bool
  /-- The attribute `aria-expanded` of `menuToggle`, if set. -/
  ariaExpanded : Option String
  /-- The inline style `body.style.overflow`. -/
  bodyOverflow : String
  /-- For every element of `navLinks`, whether it has class `active`. -/
  linkActive : List Bool
  /-- Whether `menuToggle.focus()` was called. -/
  toggleFocused : Bool
  deriving DecidableEq, Repr

/-- Embeds `toggleMenu`. The two class lists are toggled separately; the attribute
and the scroll lock follow the new state of `nav`. -/
def toggleMenu (s : NavState) : NavState :=
  let isActive := !s.navActive
  let s1 := { s with navActive := isActive }
  let s2 := { s1 with toggleActive := !s1.toggleActive }
  let s3 := { s2 with ariaExpanded := some (if isActive then "true" else "false") }
  if isActive then { s3 with bodyOverflow := "hidden" } else { s3 with bodyOverflow := "" }

/-- Embeds `closeMenu`. -/
def closeMenu (s : NavState) : NavState :=
  { s with navActive := false, toggleActive := false, ariaExpanded := some "false",
           bodyOverflow := "" }

/-- Embeds `updateActiveLink`, for the link at position `clicked` of `navLinks`. -/
def updateActiveLink (s : NavState) (clicked : Nat) : NavState :=
  { s with linkActive := (s.linkActive.map fun _ => false).set clicked true }

/-- What can happen to the navigation. -/
inductive NavEvent where
  /-- A click on the toggle button (propagation is stopped there). -/
  | toggleClick
  /-- A click on link `i`, which then bubbles to the document; the flags are
  `nav.contains(e.target)` and `menuToggle.contains(e.target)`. -/
  | linkClick (i : Nat) (insideNav insideToggle : Bool)
  /-- A click elsewhere that reaches the document listener. -/
  | documentClick (insideNav insideToggle : Bool)
  /-- A key press. -/
  | keydown (key : String)
  /-- The debounced resize callback fires with this `window.innerWidth`. -/
  | resizeSettled (innerWidth : Int)
  deriving DecidableEq, Repr

/-- The click listener of `document`. -/
def documentClickListener (s : NavState) (insideNav insideToggle : Bool) : NavState :=
  if s.navActive && !insideNav && !insideToggle then closeMenu s else s

/-- The keydown listener of `document`. -/
def keydownListener (s : NavState) (key : String) : NavState :=
  if key == "Escape" && s.navActive then { closeMenu s with toggleFocused := true } else s

/-- The callback of the resize timer. -/
def resizeCallback (s : NavState) (innerWidth : Int) : NavState :=
  if decide (innerWidth > 768) && s.navActive then closeMenu s else s

/-- The listeners that run on one event. -/
def navStep (s : NavState) : NavEvent → NavState
  | .toggleClick => toggleMenu s
  | .linkClick i insideNav insideToggle =>
    documentClickListener (closeMenu (updateActiveLink s i)) insideNav insideToggle
  | .documentClick insideNav insideToggle => documentClickListener s insideNav insideToggle
  | .keydown key => keydownListener s key
  | .resizeSettled innerWidth => resizeCallback s innerWidth

/-- The menu is open: all four markers hold. -/
def MenuOpen (s : NavState) : Prop :=
  s.navActive = true ∧ s.toggleActive = true ∧ s.ariaExpanded = some "true" ∧
    s.bodyOverflow = "hidden"

/-- The menu is closed: all four markers fail. -/
def MenuClosed (s : NavState) : Prop :=
  s.navActive = false ∧ s.toggleActive = false ∧ s.ariaExpanded ≠ some "true" ∧
    s.bodyOverflow ≠ "hidden"

/-- A page as the markup gives it: menu closed, no `aria-expanded` written
yet, three links of which the first is active. -/
def initialNav : NavState where
  navActive := false
  toggleActive := false
  ariaExpanded := none
  bodyOverflow := ""
  linkActive := [true, false, false]
  toggleFocused := false

/-! ## Typing animation -/

/-- Embeds `s.substring(0, stop)` for an integer `stop`: a negative `stop` counts as
0 and one beyond the length as the length. -/
def substring0 (s : JSString) (stop : Int) : JSString := s.take stop.toNat

/-- The fields of a `TypingAnimation` object, with the text of its element. -/
structure TypingAnimation where
  phrases : List JSString
  phraseIndex : Nat
  charIndex : Int
  isDeleting : Bool
  typingSpeed : Nat
  deletingSpeed : Nat
  pauseBeforeDelete : Nat
  pauseBeforeType : Nat
  /-- The property `element.textContent`. -/
  textContent : JSString
  deriving DecidableEq, Repr

namespace TypingAnimation

/-- Embeds `TypingAnimation.animate`: the object after the call and the delay (ms)
of the timer it sets for the next call; `none` is the `TypeError` raised when
`phrases[phraseIndex]` is `undefined`. -/
def animate (a : TypingAnimation) : Option (TypingAnimation × Nat) :=
  match a.phrases[a.phraseIndex]? with
  | none => none
  | some currentPhrase =>
    if a.isDeleting then
      let a1 := { a with charIndex := a.charIndex - 1 }
      let a2 := { a1 with textContent := substring0 currentPhrase a1.charIndex }
      if a2.charIndex = 0 then
        some ({ a2 with isDeleting := false,
                        phraseIndex := (a2.phraseIndex + 1) % a2.phrases.length },
              a2.pauseBeforeType)
      else some (a2, a2.deletingSpeed)
    else
      let a1 := { a with charIndex := a.charIndex + 1 }
      let a2 := { a1 with textContent := substring0 currentPhrase a1.charIndex }
      if a2.charIndex = (currentPhrase.length : Int) then
        some ({ a2 with isDeleting := true }, a2.pauseBeforeDelete)
      else some (a2, a2.typingSpeed)

/-- The first `n` calls of `animate`, each started by the timer of the one
before: the texts displayed, in order, and the object after the last call. -/
def run : Nat → TypingAnimation → Option (List JSString × TypingAnimation)
  | 0, a => some ([], a)
  | n + 1, a =>
    match animate a with
    | none => none
    | some (a1, _) =>
      match run n a1 with
      | none => none
      | some (texts, a2) => some (a1.textContent :: texts, a2)

end TypingAnimation

/-- The object the script constructs, with the phrases given. -/
def typingAnimationOf (phrases : List JSString) : TypingAnimation where
  phrases := phrases
  phraseIndex := 0
  charIndex := 0
  isDeleting := false
  typingSpeed := 80
  deletingSpeed := 40
  pauseBeforeDelete := 2000
  pauseBeforeType := 500
  textContent := []

/-! ## Stat counter (`AboutAnimator.animateStats`)

JavaScript numbers are binary floating point. The embedding computes with
rationals and takes the rounding of an arithmetic result as a parameter
`fl : ℚ → ℚ`, applied after every division and addition of the source;
exact arithmetic is `fl = id`, and round-to-nearest of IEEE doubles (the
function `binary64` further down) changes a result in the normal range by a
relative error of at most `2 ^ (-53)`. -/

/-- The closure `updateCount` of one stat element, called once per animation
frame as long as it asks for a further frame. `fuel` bounds the number of
frames run. The result lists the numbers written to `textContent`, in order,
and tells whether a further frame is still requested. -/
def updateCount (fl : ℚ → ℚ) (target : ℤ) (increment : ℚ) : Nat → ℚ → List ℤ × Bool
  | 0, _ => ([], true)
  | fuel + 1, current =>
    let current1 := fl (current + increment)
    if current1 < (target : ℚ) then
      let rest := updateCount fl target increment fuel current1
      (⌊current1⌋ :: rest.1, rest.2)
    else ([target], false)

/-- The body of the `forEach` of `animateStats` for one stat element with
the given `data-target`: `duration = 2000`, `increment = target / (duration /
16)`, `current = 0`, then the first call of `updateCount`. -/
def animateStat (fl : ℚ → ℚ) (target : ℤ) (fuel : Nat) : List ℤ × Bool :=
  let duration : ℚ := 2000
  let increment := fl ((target : ℚ) / fl (duration / 16))
  updateCount fl target increment fuel 0
/-! ## About section (`AboutAnimator`) -/

/-- One entry of an intersection callback: the observed element it is about
and whether that element now intersects. -/
structure IntersectionEntry where
  target : Nat
  isIntersecting : Bool
  deriving DecidableEq, Repr

/-- Adding a class to an element: `classList.add` on a class already there
changes nothing. The list holds the elements that carry the class. -/
def classListAdd (marked : List Nat) (element : Nat) : List Nat :=
  if element ∈ marked then marked else marked ++ [element]

/-- One element of `statNumbers` with the variables of its closure. -/
structure StatElement where
  /-- The value `parseInt(stat.getAttribute('data-target'))`. -/
  target : ℤ
  /-- The number last written to `textContent`, if any was. -/
  textContent : Option ℤ
  /-- The closure variable `current`. -/
  current : ℚ
  /-- Whether `requestAnimationFrame(updateCount)` is pending. -/
  frameRequested : Bool
  deriving DecidableEq, Repr

/-- One call of the closure `updateCount` of a stat element. -/
def StatElement.updateCount (fl : ℚ → ℚ) (stat : StatElement) : StatElement :=
  let duration : ℚ := 2000
  let increment := fl ((stat.target : ℚ) / fl (duration / 16))
  let current1 := fl (stat.current + increment)
  if current1 < (stat.target : ℚ) then
    { stat with current := current1, textContent := some ⌊current1⌋, frameRequested := true }
  else
    { stat with current := current1, textContent := some stat.target, frameRequested := false }

/-- The numbers a stat element displays in its next `fuel` frames, and
whether a frame is still requested after them. -/
def StatElement.frames (fl : ℚ → ℚ) : Nat → StatElement → List ℤ × Bool
  | 0, _ => ([], true)
  | fuel + 1, stat =>
    let stat1 := stat.updateCount fl
    if stat1.frameRequested then
      (stat1.textContent.toList ++ (StatElement.frames fl fuel stat1).1,
        (StatElement.frames fl fuel stat1).2)
    else (stat1.textContent.toList, false)

/-- The fields of the `AboutAnimator` object and the part of the page it
writes. -/
structure AboutAnimator where
  /-- The elements that carry class `visible`. -/
  visible : List Nat
  animated : Bool
  statsAnimated : Bool
  statNumbers : List StatElement
  /-- Delays (ms) of the `setTimeout` calls made so far, oldest first; each
  timer calls `animateStats`. -/
  timers : List Nat
  deriving DecidableEq, Repr

namespace AboutAnimator

/-- Embeds `AboutAnimator.handleIntersect`. -/
def handleIntersect (a : AboutAnimator) (entries : List IntersectionEntry) : AboutAnimator :=
  entries.foldl
    (fun a entry =>
      if entry.isIntersecting && !a.animated then
        { a with visible := classListAdd a.visible entry.target
                 animated := true
                 timers := a.timers ++ [1000] }
      else a)
    a

/-- Embeds `AboutAnimator.animateStats`: behind the guard every stat element
starts from `current = 0` and `updateCount` is called once. -/
def animateStats (fl : ℚ → ℚ) (a : AboutAnimator) : AboutAnimator :=
  if a.statsAnimated then a
  else
    { a with statsAnimated := true
             statNumbers := a.statNumbers.map fun stat =>
               StatElement.updateCount fl { stat with current := 0 } }

/-- An animation frame: every requested `updateCount` runs. -/
def animationFrame (fl : ℚ → ℚ) (a : AboutAnimator) : AboutAnimator :=
  { a with statNumbers := a.statNumbers.map fun stat =>
      if stat.frameRequested then stat.updateCount fl else stat }

end AboutAnimator

/-- What can happen to the about section. -/
inductive AboutEvent where
  /-- The observer delivers a batch of entries. -/
  | intersect (entries : List IntersectionEntry)
  /-- A timer set by `handleIntersect` fires. -/
  | timerFires
  /-- The browser runs the requested animation frames. -/
  | animationFrame
  deriving DecidableEq, Repr

/-- The code that runs on one event of the about section. -/
def aboutStep (fl : ℚ → ℚ) (a : AboutAnimator) : AboutEvent → AboutAnimator
  | .intersect entries => a.handleIntersect entries
  | .timerFires => a.animateStats fl
  | .animationFrame => a.animationFrame fl

/-- Whether some delivered entry was intersecting. -/
def someIntersecting (events : List AboutEvent) : Bool :=
  events.any fun e =>
    match e with
    | .intersect entries => entries.any fun entry => entry.isIntersecting
    | _ => false

/-- The object as the constructor leaves it, with the about element (element
0) not yet visible and two stat elements. -/
def initialAbout : AboutAnimator where
  visible := []
  animated := false
  statsAnimated := false
  statNumbers :=
    [ { target := 100, textContent := none, current := 0, frameRequested := false },
      { target := 7, textContent := none, current := 0, frameRequested := false } ]
  timers := []

/-- The about element comes into view, leaves, comes back, the timer fires,
frames run, and the element leaves and comes back once more. -/
def aboutSampleEvents : List AboutEvent :=
  [ .intersect [{ target := 0, isIntersecting := false }],
    .intersect [{ target := 0, isIntersecting := true }],
    .intersect [{ target := 0, isIntersecting := false }],
    .intersect [{ target := 0, isIntersecting := true }],
    .timerFires, .animationFrame, .timerFires,
    .intersect [{ target := 0, isIntersecting := false },
                { target := 0, isIntersecting := true }] ]

/-! ## Project cards (`ProjectsAnimator`) -/

/-- Embeds `cards.indexOf(x)`, counting from `start`: the position of the
first element equal to `x`, or -1 when there is none. -/
def arrayIndexOf (x : Nat) : List Nat → Nat → Int
  | [], _ => -1
  | c :: cs, start => if c = x then (start : Int) else arrayIndexOf x cs (start + 1)

/-- The fields of the `ProjectsAnimator` object and the part of the page it
writes. -/
structure ProjectsAnimator where
  /-- The elements of `projectCards`, in document order. -/
  projectCards : List Nat
  /-- The elements the observer observes. -/
  observed : List Nat
  /-- The elements that carry class `visible`. -/
  visible : List Nat
  /-- The `setTimeout` calls made so far, oldest first: delay (ms) and the
  element that gets class `visible` when the timer fires. -/
  timers : List (Int × Nat)
  deriving DecidableEq, Repr

namespace ProjectsAnimator

/-- Embeds `ProjectsAnimator.handleIntersect`. -/
def handleIntersect (a : ProjectsAnimator) (entries : List IntersectionEntry) :
    ProjectsAnimator :=
  entries.foldl
    (fun a entry =>
      if entry.isIntersecting then
        let index := arrayIndexOf entry.target a.projectCards 0
        { a with timers := a.timers ++ [(index * 100, entry.target)]
                 observed := a.observed.filter fun x => x ≠ entry.target }
      else a)
    a

/-- The callback of a timer set by `handleIntersect`. -/
def timerFires (a : ProjectsAnimator) (element : Nat) : ProjectsAnimator :=
  { a with visible := classListAdd a.visible element }

/-- The stagger in the words of the specification: the delay of an
intersecting entry is 100 ms times its position among the intersecting
entries of the batch. -/
def handleIntersectSpec (a : ProjectsAnimator) (entries : List IntersectionEntry) :
    ProjectsAnimator :=
  { a with
    timers := a.timers ++
      ((entries.filter fun entry => entry.isIntersecting).enum.map fun it =>
        ((it.1 : Int) * 100, it.2.target))
    observed := a.observed.filter fun x =>
      ∀ entry ∈ entries, entry.isIntersecting = true → x ≠ entry.target }

end ProjectsAnimator

/-- A page with three project cards, all observed, none visible yet. -/
def threeProjects : ProjectsAnimator where
  projectCards := [0, 1, 2]
  observed := [0, 1, 2]
  visible := []
  timers := []

/-- The object the script constructs, with an empty first phrase. -/
def typingWithEmptyPhrase : TypingAnimation := typingAnimationOf [js "", js "c"]

/-- The visitor fills in the add-testimonial form and submits it. -/
def submitTestimonial (rt : StringRuntime) (p : TestimonialsPage) (form : TestimonialForm) :
    TestimonialsPage :=
  TestimonialsManager.handleSubmit rt { p with form := form }

/-- Three submissions: one accepted without a role, one rejected for its
blank name, one accepted with a role. -/
def sampleSubmissions : List TestimonialForm :=
  [ { clientName := js "X", clientRole := js " ", clientImage := [],
      testimonialText := js "Some testimonial text" },
    { clientName := js "  ", clientRole := js "CEO", clientImage := [],
      testimonialText := js "Nice" },
    { clientName := js "Ada", clientRole := js "CTO", clientImage := js "a.png",
      testimonialText := js "Great work" } ]

/-! ## IEEE double rounding

The rounding that JavaScript applies to the result of every addition and
division, as a function on rationals: an instance of the parameter `fl` of
the stat counter. -/

/-- Rounding of a rational to the nearest integer, a tie going to the even
one. -/
def roundHalfEven (x : ℚ) : ℤ :=
  if x - (⌊x⌋ : ℚ) < 1 / 2 then ⌊x⌋
  else if 1 / 2 < x - (⌊x⌋ : ℚ) then ⌊x⌋ + 1
  else if ⌊x⌋ % 2 = 0 then ⌊x⌋
  else ⌊x⌋ + 1

/-- The number of binary digits of `n`, computed with at most `fuel`
halvings. -/
def bitLengthAux : Nat → Nat → Nat
  | 0, _ => 0
  | fuel + 1, n => if n = 0 then 0 else bitLengthAux fuel (n / 2) + 1

/-- The number of binary digits of `n`: 0 for 0, and otherwise the `b` with
`2 ^ (b - 1) ≤ n < 2 ^ b`. -/
def bitLength (n : Nat) : Nat := bitLengthAux n n

/-- The binary exponent of a positive rational `a`: the integer `e` with
`2 ^ e ≤ a < 2 ^ (e + 1)`, found from the bit lengths of numerator and
denominator. -/
def binade (a : ℚ) : ℤ :=
  if (2 : ℚ) ^ ((bitLength a.num.natAbs : ℤ) - (bitLength a.den : ℤ)) ≤ a then
    (bitLength a.num.natAbs : ℤ) - (bitLength a.den : ℤ)
  else (bitLength a.num.natAbs : ℤ) - (bitLength a.den : ℤ) - 1

/-- Rounding to the nearest number with a 53-bit significand, ties to even:
the rounding of IEEE binary64 arithmetic, with the exponent range left
unbounded (no overflow, no subnormal numbers). -/
def binary64 (x : ℚ) : ℚ :=
  if x = 0 then 0
  else (roundHalfEven (x / (2 : ℚ) ^ (binade |x| - 52)) : ℚ) * (2 : ℚ) ^ (binade |x| - 52)

/-! # Theorems -/

/-! ## Regular expressions -/

namespace Regex

theorem matches_never_iff (w : JSString) : Matches never w ↔ False := by
  constructor
  · intro h; cases h
  · intro h; exact h.elim

theorem matches_empty_iff (w : JSString) : Matches empty w ↔ w = [] := by
  constructor
  · intro h; cases h; rfl
  · intro h; subst h; exact Matches.empty

theorem matches_cls_iff (p : CodeUnit → Bool) (w : JSString) :
    Matches (cls p) w ↔ ∃ c, w = [c] ∧ p c = true := by
  constructor
  · intro h; cases h with
    | cls hc => exact ⟨_, rfl, hc⟩
  · rintro ⟨c, rfl, hc⟩; exact Matches.cls hc

theorem matches_cat_iff (r s : Regex) (w : JSString) :
    Matches (cat r s) w ↔ ∃ x y, w = x ++ y ∧ Matches r x ∧ Matches s y := by
  constructor
  · intro h; cases h with
    | cat hx hy => exact ⟨_, _, rfl, hx, hy⟩
  · rintro ⟨x, y, rfl, hx, hy⟩; exact Matches.cat hx hy

theorem matches_alt_iff (r s : Regex) (w : JSString) :
    Matches (alt r s) w ↔ Matches r w ∨ Matches s w := by
  constructor
  · intro h; cases h with
    | altL h => exact Or.inl h
    | altR h => exact Or.inr h
  · rintro (h | h)
    · exact Matches.altL h
    · exact Matches.altR h

/-- A non-empty match of `r*` starts with a non-empty match of `r`. -/
theorem matches_star_cons (r : Regex) (w : JSString) (h : Matches (star r) w) :
    w = [] ∨ ∃ x y, x ≠ [] ∧ w = x ++ y ∧ Matches r x ∧ Matches (star r) y := by
  generalize hR : star r = R at h
  induction h with
  | empty => cases hR
  | cls _ => cases hR
  | cat _ _ => cases hR
  | altL _ => cases hR
  | altR _ => cases hR
  | starNil => exact Or.inl rfl
  | @starCons r0 x y hx hy _ ihy =>
    cases hR
    cases x with
    | nil => simpa using ihy rfl
    | cons a x => exact Or.inr ⟨a :: x, y, by simp, rfl, hx, hy⟩

theorem nullable_iff (r : Regex) : r.nullable = true ↔ Matches r [] := by
  induction r with
  | never => simp [nullable, matches_never_iff]
  | empty => simp [nullable, matches_empty_iff]
  | cls p => simp [nullable, matches_cls_iff]
  | cat r s ihr ihs =>
    simp only [nullable, Bool.and_eq_true, ihr, ihs, matches_cat_iff]
    constructor
    · rintro ⟨hr, hs⟩; exact ⟨[], [], rfl, hr, hs⟩
    · rintro ⟨x, y, hxy, hr, hs⟩
      obtain ⟨hx, hy⟩ := List.append_eq_nil.1 hxy.symm
      subst hx; subst hy; exact ⟨hr, hs⟩
  | alt r s ihr ihs => simp [nullable, ihr, ihs, matches_alt_iff]
  | star r _ => simp only [nullable, true_iff]; exact Matches.starNil

theorem deriv_iff (r : Regex) (c : CodeUnit) (w : JSString) :
    Matches (r.deriv c) w ↔ Matches r (c :: w) := by
  induction r generalizing w with
  | never => simp [deriv, matches_never_iff]
  | empty => simp [deriv, matches_never_iff, matches_empty_iff]
  | cls p =>
    simp only [deriv, matches_cls_iff]
    by_cases hp : p c = true
    · simp only [hp, if_true, matches_empty_iff]
      constructor
      · rintro rfl; exact ⟨c, rfl, hp⟩
      · rintro ⟨d, hd, _⟩; simpa using (List.cons.inj hd).2
    · simp only [hp, Bool.false_eq_true, if_false, matches_never_iff, false_iff]
      rintro ⟨d, hd, hpd⟩
      have : c = d := (List.cons.inj hd).1
      subst this; exact hp hpd
  | cat r s ihr ihs =>
    have key : Matches (cat r s) (c :: w) ↔
        (∃ x y, w = x ++ y ∧ Matches r (c :: x) ∧ Matches s y) ∨
          (Matches r [] ∧ Matches s (c :: w)) := by
      rw [matches_cat_iff]
      constructor
      · rintro ⟨x, y, hxy, hx, hy⟩
        cases x with
        | nil => right; simp only [List.nil_append] at hxy; subst hxy; exact ⟨hx, hy⟩
        | cons a x =>
          left
          simp only [List.cons_append, List.cons.injEq] at hxy
          obtain ⟨rfl, rfl⟩ := hxy
          exact ⟨x, y, rfl, hx, hy⟩
      · rintro (⟨x, y, rfl, hx, hy⟩ | ⟨hx, hy⟩)
        · exact ⟨c :: x, y, rfl, hx, hy⟩
        · exact ⟨[], c :: w, rfl, hx, hy⟩
    rw [key]
    by_cases hn : r.nullable = true
    · simp only [deriv, hn, if_true, matches_alt_iff, matches_cat_iff, ihr, ihs]
      have hn2 := (nullable_iff r).1 hn
      simp [hn2]
    · simp only [deriv, hn, Bool.false_eq_true, if_false, matches_cat_iff, ihr]
      have hn2 : ¬ Matches r [] := fun h => hn ((nullable_iff r).2 h)
      simp [hn2]
  | alt r s ihr ihs => simp [deriv, matches_alt_iff, ihr, ihs]
  | star r ihr =>
    simp only [deriv, matches_cat_iff, ihr]
    constructor
    · rintro ⟨x, y, rfl, hx, hy⟩
      exact Matches.starCons (x := c :: x) hx hy
    · intro h
      rcases matches_star_cons r _ h with h0 | ⟨x, y, hx, hxy, hmx, hmy⟩
      · cases h0
      · cases x with
        | nil => exact (hx rfl).elim
        | cons a x =>
          simp only [List.cons_append, List.cons.injEq] at hxy
          obtain ⟨rfl, rfl⟩ := hxy
          exact ⟨x, y, rfl, hmx, hmy⟩

/-- The derivative matcher decides the declarative meaning. -/
theorem test_iff (r : Regex) (w : JSString) : r.test w = true ↔ Matches r w := by
  induction w generalizing r with
  | nil => simpa [test] using nullable_iff r
  | cons c w ih => simp only [test, ih, deriv_iff]

theorem matches_star_cls_iff (p : CodeUnit → Bool) (w : JSString) :
    Matches (star (cls p)) w ↔ ∀ c ∈ w, p c = true := by
  constructor
  · intro h
    generalize hR : star (cls p) = R at h
    induction h with
    | empty => cases hR
    | cls _ => cases hR
    | cat _ _ => cases hR
    | altL _ => cases hR
    | altR _ => cases hR
    | starNil => simp
    | @starCons r0 x y hx _ _ ihy =>
      cases hR
      obtain ⟨d, rfl, hd⟩ := (matches_cls_iff p x).1 hx
      intro c hc
      simp only [List.singleton_append, List.mem_cons] at hc
      rcases hc with rfl | hc
      · exact hd
      · exact ihy rfl c hc
  · intro h
    induction w with
    | nil => exact Matches.starNil
    | cons a w ih =>
      have ha : p a = true := h a (by simp)
      have hw : ∀ c ∈ w, p c = true := fun c hc => h c (by simp [hc])
      exact Matches.starCons (x := [a]) (Matches.cls ha) (ih hw)

theorem matches_plus_cls_iff (p : CodeUnit → Bool) (w : JSString) :
    Matches (plus (cls p)) w ↔ w ≠ [] ∧ ∀ c ∈ w, p c = true := by
  simp only [plus, matches_cat_iff, matches_cls_iff, matches_star_cls_iff]
  constructor
  · rintro ⟨x, y, rfl, ⟨d, rfl, hd⟩, hy⟩
    refine ⟨by simp, ?_⟩
    intro c hc
    simp only [List.singleton_append, List.mem_cons] at hc
    rcases hc with rfl | hc
    · exact hd
    · exact hy c hc
  · rintro ⟨hne, h⟩
    cases w with
    | nil => exact (hne rfl).elim
    | cons a w =>
      exact ⟨[a], w, rfl, ⟨a, rfl, h a (by simp)⟩, fun c hc => h c (by simp [hc])⟩

end Regex

/-- What the email pattern means: a non-empty local part, `@`, a non-empty
domain, `.`, a non-empty last label, none of them containing white space
or `@`. -/
theorem emailRegex_test_iff (email : JSString) :
    emailRegex.test email = true ↔
      ∃ l d t : JSString, email = l ++ 0x40 :: (d ++ 0x2E :: t) ∧
        l ≠ [] ∧ d ≠ [] ∧ t ≠ [] ∧
        (∀ c ∈ l, notSpaceAt c = true) ∧ (∀ c ∈ d, notSpaceAt c = true) ∧
        (∀ c ∈ t, notSpaceAt c = true) := by
  rw [Regex.test_iff]
  simp only [emailRegex, Regex.matches_cat_iff, Regex.matches_plus_cls_iff,
    Regex.matches_cls_iff]
  constructor
  · rintro ⟨l, _, rfl, ⟨hl, hl2⟩, _, _, rfl, ⟨a, rfl, ha⟩, d, _, rfl, ⟨hd, hd2⟩,
      _, t, rfl, ⟨b, rfl, hb⟩, ht, ht2⟩
    have ha2 : a = 0x40 := by simpa using ha
    have hb2 : b = 0x2E := by simpa using hb
    subst ha2; subst hb2
    exact ⟨l, d, t, by simp, hl, hd, ht, hl2, hd2, ht2⟩
  · rintro ⟨l, d, t, rfl, hl, hd, ht, hl2, hd2, ht2⟩
    exact ⟨l, _, rfl, ⟨hl, hl2⟩, [0x40], _, rfl, ⟨0x40, rfl, by simp⟩, d, _, rfl,
      ⟨hd, hd2⟩, [0x2E], t, rfl, ⟨0x2E, rfl, by simp⟩, ht, ht2⟩

theorem emailRegex_accepts_plain : emailRegex.test (js "a@b.com") = true := by decide
theorem emailRegex_rejects_no_at : emailRegex.test (js "bad-email") = false := by decide
theorem emailRegex_accepts_two_dots : emailRegex.test (js "a@b.c.d") = true := by decide
theorem emailRegex_rejects_two_ats : emailRegex.test (js "a@b@c.d") = false := by decide
theorem trim_sample : trim (js "  a b \n") = js "a b" := by decide

theorem encodeURIComponent_sample : encodeURIComponent (js "a b&é😀") = some (js "a%20b%26%C3%A9%F0%9F%98%80") := by decide
theorem encodeURIComponent_lone_surrogate : encodeURIComponent [0xD800] = none := by decide

/-! ## Contact form -/

open ContactAnimator

theorem sameOutsideErrors_refl (p : ContactPage) : p.sameOutsideErrors p := by
  simp [ContactPage.sameOutsideErrors]

theorem sameOutsideErrors_trans {p q r : ContactPage} (h1 : p.sameOutsideErrors q)
    (h2 : q.sameOutsideErrors r) : p.sameOutsideErrors r := by
  simp only [ContactPage.sameOutsideErrors] at *
  obtain ⟨a1, a2, a3, a4, a5, a6, a7, a8, a9, a10⟩ := h1
  obtain ⟨b1, b2, b3, b4, b5, b6, b7, b8, b9, b10⟩ := h2
  exact ⟨b1.trans a1, b2.trans a2, b3.trans a3, b4.trans a4, b5.trans a5, b6.trans a6,
    b7.trans a7, b8.trans a8, b9.trans a9, b10.trans a10⟩

theorem setError_same (p : ContactPage) (id : ErrorId) (e : ErrorElement) :
    p.sameOutsideErrors (p.setError id e) := by
  cases id <;> simp [ContactPage.sameOutsideErrors, ContactPage.setError]

theorem showError_same (p : ContactPage) (id : ErrorId) (msg : JSString) :
    p.sameOutsideErrors (showError p id msg) := by
  unfold showError
  split
  · exact setError_same p id _
  · exact sameOutsideErrors_refl p

theorem hideError_same (p : ContactPage) (id : ErrorId) :
    p.sameOutsideErrors (hideError p id) := by
  unfold hideError
  split
  · exact setError_same p id _
  · exact sameOutsideErrors_refl p

theorem validateName_same (p : ContactPage) (name : JSString) (b : Bool) :
    p.sameOutsideErrors (validateName p name b).2 := by
  unfold validateName
  split_ifs
  · exact showError_same _ _ _
  · exact hideError_same _ _

theorem validateEmail_same (p : ContactPage) (email : JSString) (b : Bool) :
    p.sameOutsideErrors (validateEmail p email b).2 := by
  unfold validateEmail
  split_ifs
  · exact showError_same _ _ _
  · exact showError_same _ _ _
  · exact hideError_same _ _

theorem validateMessage_same (p : ContactPage) (message : JSString) (b : Bool) :
    p.sameOutsideErrors (validateMessage p message b).2 := by
  unfold validateMessage
  split_ifs
  · exact showError_same _ _ _
  · exact showError_same _ _ _
  · exact hideError_same _ _

/-- The function `validateForm` touches nothing but the error elements. -/
theorem validateForm_same (p : ContactPage) (name email message : JSString) :
    p.sameOutsideErrors (validateForm p name email message).2 := by
  unfold validateForm
  exact sameOutsideErrors_trans (sameOutsideErrors_trans (validateName_same _ _ _)
    (validateEmail_same _ _ _)) (validateMessage_same _ _ _)

/-- The flag `validateForm` returns. -/
theorem validateForm_fst (p : ContactPage) (name email message : JSString) :
    (validateForm p name email message).1 = true ↔
      (name ≠ [] ∧ (email ≠ [] ∧ emailRegex.test email = true) ∧ 10 ≤ message.length) := by
  unfold validateForm validateName validateEmail validateMessage
  by_cases h1 : name = [] <;> by_cases h2 : email = [] <;>
    by_cases h3 : emailRegex.test email = true <;> by_cases h4 : message = [] <;>
    by_cases h5 : message.length < 10 <;> simp [h1, h2, h3, h4, h5]
  all_goals omega

/-- C1. The function `validateForm` returns true exactly when the name is
non-empty, the email is non-empty and matches the pattern (a non-empty local
part, `@`, a non-empty domain, `.`, a non-empty last label, all free of white
space and `@`), and the message has at least 10 code units. When the trimmed
fields are valid and can be URL-encoded, `handleSubmit` shows the success
indicator (when the element is there) and schedules one timer of 800 ms that
opens the link (when a field holds an unpaired surrogate, `encodeURIComponent`
throws and nothing is shown or scheduled); when they are not valid it returns
with the success indicator, the timers, the opened links and the field values
unchanged; a change of the indicator or of the timers happens only for valid
fields. -/
theorem contact_submit_iff_valid (p : ContactPage) (name email message : JSString) :
    ((validateForm p name email message).1 = true ↔
      (name ≠ [] ∧ (email ≠ [] ∧ emailRegex.test email = true) ∧ 10 ≤ message.length)) ∧
    (emailRegex.test email = true ↔
      ∃ l d t : JSString, email = l ++ 0x40 :: (d ++ 0x2E :: t) ∧
        l ≠ [] ∧ d ≠ [] ∧ t ≠ [] ∧
        (∀ c ∈ l, notSpaceAt c = true) ∧ (∀ c ∈ d, notSpaceAt c = true) ∧
        (∀ c ∈ t, notSpaceAt c = true)) ∧
    ((trim p.nameValue ≠ [] ∧
        (trim p.emailValue ≠ [] ∧ emailRegex.test (trim p.emailValue) = true) ∧
        10 ≤ (trim p.messageValue).length) →
      ∀ n e m : JSString, encodeURIComponent (trim p.nameValue) = some n →
        encodeURIComponent (trim p.emailValue) = some e →
        encodeURIComponent (trim p.messageValue) = some m →
        (handleSubmit p).1 = Completion.returned ∧
        (handleSubmit p).2.successMessage = p.successMessage.map (fun _ => true) ∧
        (handleSubmit p).2.timers =
          p.timers ++ [(800, ContactTask.openWhatsApp (whatsappURL n e m))] ∧
        (handleSubmit p).2.opened = p.opened) ∧
    ((trim p.nameValue ≠ [] ∧
        (trim p.emailValue ≠ [] ∧ emailRegex.test (trim p.emailValue) = true) ∧
        10 ≤ (trim p.messageValue).length) →
      (encodeURIComponent (trim p.nameValue) = none ∨
        encodeURIComponent (trim p.emailValue) = none ∨
        encodeURIComponent (trim p.messageValue) = none) →
        (handleSubmit p).1 = Completion.threwURIError ∧
        (handleSubmit p).2.successMessage = p.successMessage ∧
        (handleSubmit p).2.timers = p.timers ∧
        (handleSubmit p).2.opened = p.opened) ∧
    (¬ (trim p.nameValue ≠ [] ∧
        (trim p.emailValue ≠ [] ∧ emailRegex.test (trim p.emailValue) = true) ∧
        10 ≤ (trim p.messageValue).length) →
      (handleSubmit p).1 = Completion.returned ∧
      (handleSubmit p).2.successMessage = p.successMessage ∧
      (handleSubmit p).2.timers = p.timers ∧
      (handleSubmit p).2.opened = p.opened ∧
      (handleSubmit p).2.nameValue = p.nameValue ∧
      (handleSubmit p).2.emailValue = p.emailValue ∧
      (handleSubmit p).2.messageValue = p.messageValue) ∧
    (((handleSubmit p).2.successMessage ≠ p.successMessage ∨
        (handleSubmit p).2.timers ≠ p.timers ∨ (handleSubmit p).2.opened ≠ p.opened ∨
        (handleSubmit p).2.nameValue ≠ p.nameValue ∨
        (handleSubmit p).2.emailValue ≠ p.emailValue ∨
        (handleSubmit p).2.messageValue ≠ p.messageValue) →
      (trim p.nameValue ≠ [] ∧
        (trim p.emailValue ≠ [] ∧ emailRegex.test (trim p.emailValue) = true) ∧
        10 ≤ (trim p.messageValue).length)) := by
  have hS : handleSubmit p =
      (if !(validateForm { p with defaultPrevented := true } (trim p.nameValue)
            (trim p.emailValue) (trim p.messageValue)).1 then
        (Completion.returned, (validateForm { p with defaultPrevented := true }
          (trim p.nameValue) (trim p.emailValue) (trim p.messageValue)).2)
      else
        match encodeURIComponent (trim p.nameValue), encodeURIComponent (trim p.emailValue),
          encodeURIComponent (trim p.messageValue) with
        | some n, some e, some m =>
          (Completion.returned,
            { showSuccessMessage (validateForm { p with defaultPrevented := true }
                (trim p.nameValue) (trim p.emailValue) (trim p.messageValue)).2 with
              timers := (showSuccessMessage (validateForm { p with defaultPrevented := true }
                (trim p.nameValue) (trim p.emailValue) (trim p.messageValue)).2).timers ++
                  [(800, ContactTask.openWhatsApp (whatsappURL n e m))] })
        | _, _, _ => (Completion.threwURIError,
            (validateForm { p with defaultPrevented := true } (trim p.nameValue)
              (trim p.emailValue) (trim p.messageValue)).2)) := rfl
  have hsame := validateForm_same { p with defaultPrevented := true } (trim p.nameValue)
    (trim p.emailValue) (trim p.messageValue)
  have hfst := validateForm_fst { p with defaultPrevented := true } (trim p.nameValue)
    (trim p.emailValue) (trim p.messageValue)
  simp only [ContactPage.sameOutsideErrors] at hsame
  rw [hS]
  generalize validateForm { p with defaultPrevented := true } (trim p.nameValue)
    (trim p.emailValue) (trim p.messageValue) = v at hsame hfst ⊢
  obtain ⟨a1, a2, a3, -, -, -, a7, a8, a9, -⟩ := hsame
  obtain ⟨v1, v2⟩ := v
  simp only at a1 a2 a3 a7 a8 a9 hfst
  refine ⟨validateForm_fst p name email message, emailRegex_test_iff email, ?_, ?_, ?_, ?_⟩
  · intro hv n e m hn he hm
    have ht := hfst.2 hv
    subst ht
    simp only [Bool.not_true, Bool.false_eq_true, if_false, hn, he, hm, showSuccessMessage]
    cases hs : v2.successMessage with
    | none => simp [hs, ← a7, a8, a9]
    | some b => simp [hs, ← a7, a8, a9]
  · intro hv henc
    have ht := hfst.2 hv
    subst ht
    simp only [Bool.not_true, Bool.false_eq_true, if_false]
    split
    · rename_i hn he hm
      rcases henc with h | h | h
      · rw [h] at hn; cases hn
      · rw [h] at he; cases he
      · rw [h] at hm; cases hm
    · exact ⟨rfl, a7, a8, a9⟩
  · intro hv
    have hf : v1 = false := by
      rw [← Bool.not_eq_true]; exact fun h => hv (hfst.1 h)
    subst hf
    simp only [Bool.not_false, if_true]
    exact ⟨trivial, a7, a8, a9, a1, a2, a3⟩
  · intro hch
    by_contra hv
    have hf : v1 = false := by
      rw [← Bool.not_eq_true]; exact fun h => hv (hfst.1 h)
    subst hf
    simp only [Bool.not_false, if_true] at hch
    rcases hch with h | h | h | h | h | h
    · exact h a7
    · exact h a8
    · exact h a9
    · exact h a1
    · exact h a2
    · exact h a3

/-- C1, at a page with name "Jo", email "a@b.com" and message "hello
there!": the success indicator is shown and one timer of 800 ms is set to
open the link. -/
theorem contact_submit_iff_valid_witness :
    (ContactAnimator.handleSubmit sampleContactPage).1 = Completion.returned ∧
    (ContactAnimator.handleSubmit sampleContactPage).2.successMessage = some true ∧
    (ContactAnimator.handleSubmit sampleContactPage).2.timers =
      [(800, ContactTask.openWhatsApp
        (whatsappURL (js "Jo") (js "a%40b.com") (js "hello%20there!")))] ∧
    (ContactAnimator.handleSubmit sampleContactPage).2.opened = [] :=
  (contact_submit_iff_valid sampleContactPage [] [] []).2.2.1 (by decide)
    (js "Jo") (js "a%40b.com") (js "hello%20there!") (by decide) (by decide) (by decide)

set_option maxRecDepth 8000 in
/-- The link built for name "Jo", email "a@b.com", message "hello there!". -/
theorem whatsappURL_sample :
    whatsappURL (js "Jo") (js "a%40b.com") (js "hello%20there!") =
      js ("https://wa.me/2348134260378?text=*New Message from Portfolio*%0A%0A*Name:* Jo" ++
        "%0A*Email:* a%40b.com%0A*Message:*%0Ahello%20there!") := by
  decide

theorem getError_showError (p : ContactPage) (id id2 : ErrorId) (msg : JSString) :
    (showError p id msg).getError id2 =
      if id2 = id then (p.getError id2).map (fun _ => { textContent := msg, shown := true })
      else p.getError id2 := by
  cases id <;> cases id2 <;> simp only [showError, ContactPage.getError] <;> split <;>
    simp_all [ContactPage.setError]

theorem getError_hideError (p : ContactPage) (id id2 : ErrorId) :
    (hideError p id).getError id2 =
      if id2 = id then (p.getError id2).map (fun _ => { textContent := [], shown := false })
      else p.getError id2 := by
  cases id <;> cases id2 <;> simp only [hideError, ContactPage.getError] <;> split <;>
    simp_all [ContactPage.setError]

theorem getError_validateName (p : ContactPage) (name : JSString) (b : Bool) (id : ErrorId) :
    (validateName p name b).2.getError id =
      if id = ErrorId.nameError then
        (p.getError id).map (fun _ =>
          if name = [] then { textContent := js "Please enter your name", shown := true }
          else { textContent := [], shown := false })
      else p.getError id := by
  unfold validateName
  split_ifs <;> simp_all [getError_showError, getError_hideError]

theorem getError_validateEmail (p : ContactPage) (email : JSString) (b : Bool) (id : ErrorId) :
    (validateEmail p email b).2.getError id =
      if id = ErrorId.emailError then
        (p.getError id).map (fun _ =>
          if email = [] then { textContent := js "Please enter your email", shown := true }
          else if emailRegex.test email = false then
            { textContent := js "Please enter a valid email", shown := true }
          else { textContent := [], shown := false })
      else p.getError id := by
  unfold validateEmail
  split_ifs <;> simp_all [getError_showError, getError_hideError]

theorem getError_validateMessage (p : ContactPage) (message : JSString) (b : Bool)
    (id : ErrorId) :
    (validateMessage p message b).2.getError id =
      if id = ErrorId.messageError then
        (p.getError id).map (fun _ =>
          if message = [] then { textContent := js "Please enter your message", shown := true }
          else if message.length < 10 then
            { textContent := js "Message must be at least 10 characters", shown := true }
          else { textContent := [], shown := false })
      else p.getError id := by
  unfold validateMessage
  split_ifs <;> simp_all [getError_showError, getError_hideError]

/-- C2. After `validateForm` each error element, when the page has it, is
decided by its own field alone: the name error shows "Please enter your
name" exactly when the name is empty; the email error shows its message
exactly when the email is empty or does not match the pattern; the message
error shows its message exactly when the message is empty or shorter than
10 code units (then with a text containing "must be at least 10
characters"); a field that passes gets its error cleared. With name "",
email "a@b.com", message "hello there!" only the name error is shown; with
name "Jo", email "bad-email", message "short" the email and message errors
are shown and the name error is not. -/
theorem contact_errors_independent (p : ContactPage) (name email message : JSString) :
    (validateForm p name email message).2.nameError =
      p.nameError.map (fun _ =>
        if name = [] then { textContent := js "Please enter your name", shown := true }
        else { textContent := [], shown := false }) ∧
    (validateForm p name email message).2.emailError =
      p.emailError.map (fun _ =>
        if email = [] then { textContent := js "Please enter your email", shown := true }
        else if emailRegex.test email = false then
          { textContent := js "Please enter a valid email", shown := true }
        else { textContent := [], shown := false }) ∧
    (validateForm p name email message).2.messageError =
      p.messageError.map (fun _ =>
        if message = [] then { textContent := js "Please enter your message", shown := true }
        else if message.length < 10 then
          { textContent := js "Message must be at least 10 characters", shown := true }
        else { textContent := [], shown := false }) ∧
    js "must be at least 10 characters" <:+: js "Message must be at least 10 characters" ∧
    ((validateForm p (js "") (js "a@b.com") (js "hello there!")).1 = false ∧
      (validateForm p (js "") (js "a@b.com") (js "hello there!")).2.nameError =
        p.nameError.map (fun _ =>
          { textContent := js "Please enter your name", shown := true }) ∧
      (validateForm p (js "") (js "a@b.com") (js "hello there!")).2.emailError =
        p.emailError.map (fun _ => { textContent := [], shown := false }) ∧
      (validateForm p (js "") (js "a@b.com") (js "hello there!")).2.messageError =
        p.messageError.map (fun _ => { textContent := [], shown := false })) ∧
    ((validateForm p (js "Jo") (js "bad-email") (js "short")).1 = false ∧
      (validateForm p (js "Jo") (js "bad-email") (js "short")).2.nameError =
        p.nameError.map (fun _ => { textContent := [], shown := false }) ∧
      (validateForm p (js "Jo") (js "bad-email") (js "short")).2.emailError =
        p.emailError.map (fun _ =>
          { textContent := js "Please enter a valid email", shown := true }) ∧
      (validateForm p (js "Jo") (js "bad-email") (js "short")).2.messageError =
        p.messageError.map (fun _ =>
          { textContent := js "Message must be at least 10 characters", shown := true })) := by
  have key : ∀ (n e m : JSString),
      (validateForm p n e m).2.nameError =
        p.nameError.map (fun _ =>
          if n = [] then { textContent := js "Please enter your name", shown := true }
          else { textContent := [], shown := false }) ∧
      (validateForm p n e m).2.emailError =
        p.emailError.map (fun _ =>
          if e = [] then { textContent := js "Please enter your email", shown := true }
          else if emailRegex.test e = false then
            { textContent := js "Please enter a valid email", shown := true }
          else { textContent := [], shown := false }) ∧
      (validateForm p n e m).2.messageError =
        p.messageError.map (fun _ =>
          if m = [] then { textContent := js "Please enter your message", shown := true }
          else if m.length < 10 then
            { textContent := js "Message must be at least 10 characters", shown := true }
          else { textContent := [], shown := false }) := by
    intro n e m
    have h1 := getError_validateMessage (validateEmail (validateName p n true).2 e
      (validateName p n true).1).2 m (validateEmail (validateName p n true).2 e
      (validateName p n true).1).1
    have h2 := getError_validateEmail (validateName p n true).2 e (validateName p n true).1
    have h3 := getError_validateName p n true
    refine ⟨?_, ?_, ?_⟩
    · have := h1 ErrorId.nameError
      rw [h2 ErrorId.nameError, h3 ErrorId.nameError] at this
      simpa [ContactPage.getError, validateForm] using this
    · have := h1 ErrorId.emailError
      rw [h2 ErrorId.emailError, h3 ErrorId.emailError] at this
      simpa [ContactPage.getError, validateForm] using this
    · have := h1 ErrorId.messageError
      rw [h2 ErrorId.messageError, h3 ErrorId.messageError] at this
      simpa [ContactPage.getError, validateForm] using this
  refine ⟨(key name email message).1, (key name email message).2.1,
    (key name email message).2.2, by decide, ⟨?_, ?_, ?_, ?_⟩, ⟨?_, ?_, ?_, ?_⟩⟩
  · rw [← Bool.not_eq_true, validateForm_fst]; decide
  · rw [(key _ _ _).1]; rfl
  · rw [(key _ _ _).2.1]; rfl
  · rw [(key _ _ _).2.2]; rfl
  · rw [← Bool.not_eq_true, validateForm_fst]; decide
  · rw [(key _ _ _).1]; rfl
  · rw [(key _ _ _).2.1]; rfl
  · rw [(key _ _ _).2.2]; rfl

/-! ## Testimonials -/

open TestimonialsManager

theorem getInitials_sample_ascii : getInitials asciiRuntime (js "Ifeoluwa Nasrat") = js "IN" := by decide
theorem getInitials_double_space : getInitials asciiRuntime (js "a  b") = js "AB" := by decide
theorem getInitials_tab_ascii : getInitials asciiRuntime (js "a\tb") = js "A" := by decide
theorem getInitialsSpec_tab_ascii : getInitialsSpec asciiRuntime (js "a\tb") = js "AB" := by decide
theorem construct_sample_names : ((construct asciiRuntime emptyTestimonialsPage).carousel.map (·.clientName)) =
  [js "Sarah Johnson", js "Ifeoluwa Nasrat", js "Michael Chen"] := by decide

theorem render_foldl (rt : StringRuntime) (l : List (Nat × Testimonial))
    (q : TestimonialsPage) :
    l.foldl (fun q it =>
        { q with carousel := q.carousel ++ [createTestimonialCard rt it.2 it.1] }) q =
      { q with carousel :=
          q.carousel ++ l.map (fun it => createTestimonialCard rt it.2 it.1) } := by
  induction l generalizing q with
  | nil => simp
  | cons a l ih => simp [ih]

/-- Rendering replaces the carousel by one card per entry, in order, and
changes nothing else. -/
theorem renderTestimonials_eq (rt : StringRuntime) (p : TestimonialsPage)
    (ts : List Testimonial) :
    renderTestimonials rt p ts =
      { p with carousel := ts.enum.map (fun it => createTestimonialCard rt it.2 it.1) } := by
  simp [renderTestimonials, render_foldl]

theorem enum_map_clientName (rt : StringRuntime) (ts : List Testimonial) (n : Nat) :
    ((ts.enumFrom n).map (fun it => createTestimonialCard rt it.2 it.1)).map
        (fun c => (c.clientName, c.text)) = ts.map (fun t => (t.name, t.text)) := by
  induction ts generalizing n with
  | nil => rfl
  | cons t ts ih =>
    simp only [List.enumFrom_cons, List.map_cons, ih]
    simp [createTestimonialCard]

/-- C3. When a sequence `s` is stored and the trimmed name and text of the
form are non-empty, `handleSubmit` stores `e :: s` and renders one card per
entry of `e :: s` in that order, where `e` is built from the trimmed inputs
with role "Client" when the trimmed role is blank: the stored sequence grows
by one, `e` is at index 0 and the earlier entries follow unchanged. From the
three seeded defaults, submitting name "X" and text "Some testimonial text"
stores four entries with the new one first. -/
theorem testimonial_submit_prepends (rt : StringRuntime) (p : TestimonialsPage)
    (s : List Testimonial) (hs : p.stored = some s)
    (hname : trim p.form.clientName ≠ []) (htext : trim p.form.testimonialText ≠ []) :
    (TestimonialsManager.handleSubmit rt p).stored =
      some ({ name := trim p.form.clientName
              role := if trim p.form.clientRole = [] then js "Client"
                      else trim p.form.clientRole
              image := trim p.form.clientImage
              text := trim p.form.testimonialText } :: s) ∧
    (TestimonialsManager.handleSubmit rt p).carousel =
      (newTestimonial p.form :: s).enum.map
        (fun it => createTestimonialCard rt it.2 it.1) ∧
    (TestimonialsManager.handleSubmit rt p).carousel.map (fun c => (c.clientName, c.text)) =
      (newTestimonial p.form :: s).map (fun t => (t.name, t.text)) ∧
    (∃ l, (TestimonialsManager.handleSubmit rt p).stored = some l ∧
      l.length = s.length + 1 ∧ l.head? = some (newTestimonial p.form) ∧ l.tail = s) ∧
    (TestimonialsManager.handleSubmit rt seededPageWithX).stored =
      some ({ name := js "X", role := js "Client", image := [],
              text := js "Some testimonial text" } :: builtinTestimonials) ∧
    (builtinTestimonials.length = 3 ∧
      ((TestimonialsManager.handleSubmit rt seededPageWithX).stored.map List.length) = some 4)
    := by
  have hgen : ∀ (q : TestimonialsPage) (l : List Testimonial), q.stored = some l →
      trim q.form.clientName ≠ [] → trim q.form.testimonialText ≠ [] →
      TestimonialsManager.handleSubmit rt q =
        { q with stored := some (newTestimonial q.form :: l)
                 carousel := (newTestimonial q.form :: l).enum.map
                    (fun it => createTestimonialCard rt it.2 it.1)
                 toastShown := true
                 toastTimers := q.toastTimers ++ [3000]
                 form := q.formDefault
                 carouselScrollLeft := 0 } := by
    intro q l hq h1 h2
    simp [TestimonialsManager.handleSubmit, h1, h2, hq, renderTestimonials_eq, showToast]
  have hrole : newTestimonial p.form =
      { name := trim p.form.clientName
        role := if trim p.form.clientRole = [] then js "Client" else trim p.form.clientRole
        image := trim p.form.clientImage
        text := trim p.form.testimonialText } := by
    unfold newTestimonial
    by_cases h : trim p.form.clientRole = [] <;> simp [h]
  have hseed : TestimonialsManager.handleSubmit rt seededPageWithX =
      { seededPageWithX with
          stored := some (newTestimonial seededPageWithX.form :: builtinTestimonials)
          carousel := (newTestimonial seededPageWithX.form :: builtinTestimonials).enum.map
            (fun it => createTestimonialCard rt it.2 it.1)
          toastShown := true
          toastTimers := seededPageWithX.toastTimers ++ [3000]
          form := seededPageWithX.formDefault
          carouselScrollLeft := 0 } :=
    hgen seededPageWithX builtinTestimonials rfl (by decide) (by decide)
  rw [hgen p s hs hname htext]
  refine ⟨by rw [hrole], rfl, ?_, ⟨_, rfl, by simp, by simp, by simp⟩, ?_, by decide, ?_⟩
  · exact enum_map_clientName rt _ 0
  · rw [hseed]; rfl
  · rw [hseed]; rfl

/-- C3, at the seeded page with name "X" and text "Some testimonial text". -/
theorem testimonial_submit_prepends_witness :
    (TestimonialsManager.handleSubmit asciiRuntime seededPageWithX).stored =
      some ({ name := js "X", role := js "Client", image := [],
              text := js "Some testimonial text" } :: builtinTestimonials) :=
  (testimonial_submit_prepends asciiRuntime seededPageWithX builtinTestimonials
    rfl (by decide) (by decide)).2.2.2.2.1

/-- C4. When nothing is stored, `loadTestimonials` renders one card per entry
of the default array, in order, and stores that array; when a sequence is
stored it renders one card per stored entry, in stored order, and leaves the
stored value as it is. The manager is constructed with the three built-in
entries as default array, so a first load from empty storage renders and
stores exactly those three. -/
theorem loadTestimonials_default_or_stored (rt : StringRuntime) (p : TestimonialsPage) :
    (p.stored = none →
      (loadTestimonials rt p).carousel =
        p.defaultTestimonials.enum.map (fun it => createTestimonialCard rt it.2 it.1) ∧
      (loadTestimonials rt p).carousel.map (fun c => (c.clientName, c.text)) =
        p.defaultTestimonials.map (fun t => (t.name, t.text)) ∧
      (loadTestimonials rt p).stored = some p.defaultTestimonials) ∧
    (∀ s, p.stored = some s →
      (loadTestimonials rt p).carousel =
        s.enum.map (fun it => createTestimonialCard rt it.2 it.1) ∧
      (loadTestimonials rt p).carousel.map (fun c => (c.clientName, c.text)) =
        s.map (fun t => (t.name, t.text)) ∧
      (loadTestimonials rt p).carousel.length = s.length ∧
      (loadTestimonials rt p).stored = some s) ∧
    (p.stored = none →
      (construct rt p).carousel =
        builtinTestimonials.enum.map (fun it => createTestimonialCard rt it.2 it.1) ∧
      (construct rt p).carousel.map (fun c => c.clientName) =
        [js "Sarah Johnson", js "Ifeoluwa Nasrat", js "Michael Chen"] ∧
      (construct rt p).carousel.length = 3 ∧
      (construct rt p).stored = some builtinTestimonials) ∧
    (∀ s, p.stored = some s →
      (construct rt p).carousel = s.enum.map (fun it => createTestimonialCard rt it.2 it.1) ∧
      (construct rt p).stored = some s) := by
  refine ⟨?_, ?_, ?_, ?_⟩
  · intro h
    have e : loadTestimonials rt p =
        { p with stored := some p.defaultTestimonials
                 carousel := p.defaultTestimonials.enum.map
                   (fun it => createTestimonialCard rt it.2 it.1) } := by
      simp only [loadTestimonials, h, renderTestimonials_eq]
    rw [e]
    exact ⟨rfl, enum_map_clientName rt _ 0, rfl⟩
  · intro s h
    have e : loadTestimonials rt p =
        { p with carousel := s.enum.map (fun it => createTestimonialCard rt it.2 it.1) } := by
      simp only [loadTestimonials, h, renderTestimonials_eq]
    rw [e]
    exact ⟨rfl, enum_map_clientName rt _ 0, by simp, h⟩
  · intro h
    have e : construct rt p =
        { p with stored := some builtinTestimonials
                 defaultTestimonials := builtinTestimonials
                 carousel := builtinTestimonials.enum.map
                   (fun it => createTestimonialCard rt it.2 it.1) } := by
      simp only [construct, loadTestimonials, h, renderTestimonials_eq]
    rw [e]
    refine ⟨rfl, ?_, by simp [builtinTestimonials], rfl⟩
    simp [builtinTestimonials, List.enum, List.enumFrom, createTestimonialCard]
  · intro s h
    have e : construct rt p =
        { p with defaultTestimonials := builtinTestimonials
                 carousel := s.enum.map (fun it => createTestimonialCard rt it.2 it.1) } := by
      simp only [construct, loadTestimonials, h, renderTestimonials_eq]
    rw [e]
    exact ⟨rfl, h⟩

/-- C5. When the name or the text of the form is empty after trimming,
`handleSubmit` returns the page as it was: stored sequence, carousel, toast,
timers and form fields are all unchanged. -/
theorem testimonial_submit_rejects (rt : StringRuntime) (p : TestimonialsPage)
    (h : trim p.form.clientName = [] ∨ trim p.form.testimonialText = []) :
    TestimonialsManager.handleSubmit rt p = p := by
  simp [TestimonialsManager.handleSubmit, h]

/-- C5, at a form whose name is only white space. -/
theorem testimonial_submit_rejects_witness :
    TestimonialsManager.handleSubmit asciiRuntime seededPageBlankName = seededPageBlankName :=
  testimonial_submit_rejects asciiRuntime seededPageBlankName (Or.inl (by decide))

theorem splitWhere_congr (p q : CodeUnit → Bool) (s : JSString)
    (h : ∀ c ∈ s, p c = q c) : splitWhere p s = splitWhere q s := by
  induction s with
  | nil => rfl
  | cons c cs ih =>
    have hc : p c = q c := h c (by simp)
    have hcs : ∀ d ∈ cs, p d = q d := fun d hd => h d (by simp [hd])
    simp only [splitWhere, hc, ih hcs]

theorem joinFirsts_eq_filterMap (tokens : List JSString) :
    joinFirsts tokens = (tokens.filter (fun t => t ≠ [])).filterMap List.head? := by
  induction tokens with
  | nil => rfl
  | cons t ts ih =>
    have hcons : joinFirsts (t :: ts) = t.head?.toList ++ joinFirsts ts := by
      simp [joinFirsts]
    rw [hcons, ih]
    cases t with
    | nil => simp
    | cons a t => simp

/-- C6, as the code has it: `getInitials` splits at the space character
U+0020 only. It is the upper-cased string of the first code units of the
non-empty space-separated tokens, cut to 2 code units; it agrees with the
white-space split of the specification on every name whose only white space
is U+0020; `getInitials("Ifeoluwa Nasrat")` is "IN" and `getInitials("X")`
is "X". -/
theorem getInitials_space_split (rt : StringRuntime) (name : JSString) :
    getInitials rt name =
      (rt.toUpperCase
        (((splitWhere (fun c => c == 0x20) name).filter (fun t => t ≠ [])).filterMap
          List.head?)).take 2 ∧
    ((∀ c ∈ name, isWhiteSpace c = true → c = 0x20) →
      getInitials rt name = getInitialsSpec rt name) ∧
    getInitials rt (js "Ifeoluwa Nasrat") = js "IN" ∧
    getInitials rt (js "X") = js "X" := by
  refine ⟨?_, ?_, ?_, ?_⟩
  · rw [getInitials, splitSpace, joinFirsts_eq_filterMap]
  · intro h
    have hsplit : splitWhere (fun c => c == 0x20) name = splitWhere isWhiteSpace name := by
      apply splitWhere_congr
      intro c hc
      by_cases hw : isWhiteSpace c = true
      · have := h c hc hw
        subst this
        rfl
      · have hne : c ≠ 0x20 := by
          rintro rfl
          exact hw (by decide)
        simp only [Bool.not_eq_true] at hw
        simp [hw, hne]
    rw [getInitials, getInitialsSpec, splitSpace, hsplit]
  · have h1 : joinFirsts (splitSpace (js "Ifeoluwa Nasrat")) = js "IN" := by decide
    rw [getInitials, h1, rt.toUpperCase_ascii _ (by decide)]
    decide
  · have h1 : joinFirsts (splitSpace (js "X")) = js "X" := by decide
    rw [getInitials, h1, rt.toUpperCase_ascii _ (by decide)]
    decide

/-- C6 as stated fails: for the name "a", tab, "b" the code, which splits
at spaces only, gives "A" under every runtime, while the white-space split
of the specification gives "AB". -/
theorem getInitials_tab_counterexample :
    (∀ rt : StringRuntime, getInitials rt (js "a\tb") = js "A" ∧
      getInitialsSpec rt (js "a\tb") = js "AB") ∧
    js "A" ≠ js "AB" ∧
    ¬ ∃ rt : StringRuntime, getInitials rt (js "a\tb") = getInitialsSpec rt (js "a\tb") := by
  have key : ∀ rt : StringRuntime, getInitials rt (js "a\tb") = js "A" ∧
      getInitialsSpec rt (js "a\tb") = js "AB" := by
    intro rt
    have h1 : joinFirsts (splitSpace (js "a\tb")) = js "a" := by decide
    have h2 : joinFirsts (splitWhere isWhiteSpace (js "a\tb")) = js "ab" := by decide
    constructor
    · rw [getInitials, h1, rt.toUpperCase_ascii _ (by decide)]
      decide
    · rw [getInitialsSpec, h2, rt.toUpperCase_ascii _ (by decide)]
      decide
  refine ⟨key, by decide, ?_⟩
  rintro ⟨rt, h⟩
  rw [(key rt).1, (key rt).2] at h
  exact absurd h (by decide)

/-! ## Newsletter capture -/

theorem subscribe_twice_sample : (subscribe (subscribe emptyNewsletterPage (js " a@b.c ")) (js "a@b.c")).subscribers =
    some [js "a@b.c"] := by decide

/-- The stored list after a submission with a non-empty trimmed email. -/
theorem subscribe_subscribers (p : NewsletterPage) (raw : JSString) (he : trim raw ≠ []) :
    (subscribe p raw).subscribers =
      if trim raw ∈ p.subscribers.getD [] then p.subscribers
      else some (p.subscribers.getD [] ++ [trim raw]) := by
  by_cases hm : trim raw ∈ p.subscribers.getD []
  · simp [subscribe, newsletterFormSubmit, he, hm]
  · simp [subscribe, newsletterFormSubmit, he, hm]

/-- The stored list after any submission is the old one or the old one with
the trimmed email appended, and it stays free of duplicates. -/
theorem subscribe_nodup (p : NewsletterPage) (raw : JSString)
    (h : (p.subscribers.getD []).Nodup) : ((subscribe p raw).subscribers.getD []).Nodup := by
  by_cases he : trim raw = []
  · simpa [subscribe, newsletterFormSubmit, he] using h
  · rw [subscribe_subscribers p raw he]
    by_cases hm : trim raw ∈ p.subscribers.getD []
    · simpa [hm] using h
    · simp only [hm, if_false, Option.getD_some]
      exact List.Nodup.append h (List.nodup_singleton _) (by simpa using hm)

theorem subscribe_all_nodup (inputs : List JSString) (p : NewsletterPage)
    (h : (p.subscribers.getD []).Nodup) :
    ((inputs.foldl subscribe p).subscribers.getD []).Nodup := by
  induction inputs generalizing p with
  | nil => exact h
  | cons raw rest ih => exact ih _ (subscribe_nodup p raw h)

/-- C7. For a stored list `L` and an entered email whose trimmed value `e`
is non-empty, a submission leaves the storage as it is when `e` is in `L`
and stores `L` with `e` appended otherwise; `e` is in the stored list
afterwards; a second submission of the same email does not change the
storage, and leaves exactly one copy of `e` when `L` had no duplicates (in
general as many copies as `L` had, or one when `L` had none); a
duplicate-free list stays duplicate-free under any sequence of submissions;
the success indicator is shown after the first and after the second
submission. -/
theorem newsletter_set_insert (p : NewsletterPage) (raw : JSString) (he : trim raw ≠ []) :
    (trim raw ∈ p.subscribers.getD [] → (subscribe p raw).subscribers = p.subscribers) ∧
    (trim raw ∉ p.subscribers.getD [] →
      (subscribe p raw).subscribers = some (p.subscribers.getD [] ++ [trim raw])) ∧
    trim raw ∈ (subscribe p raw).subscribers.getD [] ∧
    (subscribe (subscribe p raw) raw).subscribers = (subscribe p raw).subscribers ∧
    ((p.subscribers.getD []).Nodup →
      ((subscribe (subscribe p raw) raw).subscribers.getD []).countP
        (fun x => decide (x = trim raw)) = 1) ∧
    ((subscribe (subscribe p raw) raw).subscribers.getD []).countP
        (fun x => decide (x = trim raw)) =
      (if trim raw ∈ p.subscribers.getD [] then
        (p.subscribers.getD []).countP (fun x => decide (x = trim raw))
      else 1) ∧
    (∀ inputs : List JSString, (p.subscribers.getD []).Nodup →
      ((inputs.foldl subscribe p).subscribers.getD []).Nodup) ∧
    (subscribe p raw).successShown = true ∧
    (subscribe (subscribe p raw) raw).successShown = true := by
  have h1 := subscribe_subscribers p raw he
  have hmem : trim raw ∈ (subscribe p raw).subscribers.getD [] := by
    rw [h1]
    by_cases hm : trim raw ∈ p.subscribers.getD []
    · simp [hm]
    · simp [hm]
  have h2 : (subscribe (subscribe p raw) raw).subscribers = (subscribe p raw).subscribers := by
    rw [subscribe_subscribers (subscribe p raw) raw he]
    simp [hmem]
  have hshown : ∀ q : NewsletterPage, (subscribe q raw).successShown = true := by
    intro q
    simp [subscribe, newsletterFormSubmit, he]
  refine ⟨fun hm => by rw [h1]; simp [hm], fun hm => by rw [h1]; simp [hm], hmem, h2, ?_, ?_,
    fun inputs h => subscribe_all_nodup inputs p h, hshown p, hshown _⟩
  rotate_left
  · rw [h2, h1]
    by_cases hm : trim raw ∈ p.subscribers.getD []
    · simp only [hm, if_true]
    · have hz : (p.subscribers.getD []).countP (fun x => decide (x = trim raw)) = 0 := by
        rw [List.countP_eq_zero]
        intro x hx
        simp only [decide_eq_true_eq]
        rintro rfl
        exact hm hx
      simp only [hm, if_false, Option.getD_some, List.countP_append, hz]
      simp
  intro hnd
  rw [h2]
  have hc := List.count_eq_one_of_mem (subscribe_nodup p raw hnd) hmem
  rw [← hc]
  unfold List.count
  congr 1

/-- C7, at an empty storage and the email " a@b.c ". -/
theorem newsletter_set_insert_witness :
    (subscribe (subscribe emptyNewsletterPage (js " a@b.c ")) (js " a@b.c ")).subscribers =
      (subscribe emptyNewsletterPage (js " a@b.c ")).subscribers :=
  (newsletter_set_insert emptyNewsletterPage (js " a@b.c ") (by decide)).2.2.2.1

/-! ## Navigation menu -/

theorem closeMenu_closed (s : NavState) : MenuClosed (closeMenu s) := by
  simp [MenuClosed, closeMenu]

theorem toggleMenu_open_of_closed (s : NavState) (h : MenuClosed s) :
    MenuOpen (toggleMenu s) := by
  obtain ⟨h1, h2, -, -⟩ := h
  simp [MenuOpen, toggleMenu, h1, h2]

theorem toggleMenu_closed_of_open (s : NavState) (h : MenuOpen s) :
    MenuClosed (toggleMenu s) := by
  obtain ⟨h1, h2, -, -⟩ := h
  simp [MenuClosed, toggleMenu, h1, h2]

theorem navStep_synced (s : NavState) (e : NavEvent) (h : MenuOpen s ∨ MenuClosed s) :
    MenuOpen (navStep s e) ∨ MenuClosed (navStep s e) := by
  cases e with
  | toggleClick =>
    rcases h with h | h
    · exact Or.inr (toggleMenu_closed_of_open s h)
    · exact Or.inl (toggleMenu_open_of_closed s h)
  | linkClick i a b =>
    right
    simp only [navStep, documentClickListener]
    split_ifs
    · exact closeMenu_closed _
    · exact closeMenu_closed _
  | documentClick a b =>
    simp only [navStep, documentClickListener]
    split_ifs
    · exact Or.inr (closeMenu_closed _)
    · exact h
  | keydown key =>
    simp only [navStep, keydownListener]
    split_ifs
    · right
      simp [MenuClosed, closeMenu]
    · exact h
  | resizeSettled w =>
    simp only [navStep, resizeCallback]
    split_ifs
    · exact Or.inr (closeMenu_closed _)
    · exact h

/-- C10. From any closed state, after any sequence of toggle clicks, link
clicks, document clicks, key presses and settled resizes, the four markers
(class `active` on `nav`, class `active` on the toggle button, `aria-expanded`
equal to "true", body overflow `hidden`) all hold or all fail; in such a
state `toggleMenu` turns open into closed and closed into open; `closeMenu`
gives a closed state from every state; a link click always ends closed. -/
theorem menu_markers_synchronized (s0 : NavState) (h0 : MenuClosed s0)
    (events : List NavEvent) :
    (MenuOpen (events.foldl navStep s0) ∨ MenuClosed (events.foldl navStep s0)) ∧
    ¬ (MenuOpen (events.foldl navStep s0) ∧ MenuClosed (events.foldl navStep s0)) ∧
    (MenuOpen (events.foldl navStep s0) →
      MenuClosed (toggleMenu (events.foldl navStep s0))) ∧
    (MenuClosed (events.foldl navStep s0) →
      MenuOpen (toggleMenu (events.foldl navStep s0))) ∧
    (∀ s : NavState, MenuClosed (closeMenu s)) ∧
    (∀ (s : NavState) (i : Nat) (a b : Bool),
      MenuClosed (navStep s (NavEvent.linkClick i a b))) := by
  have hsync : ∀ (evs : List NavEvent) (s : NavState), (MenuOpen s ∨ MenuClosed s) →
      (MenuOpen (evs.foldl navStep s) ∨ MenuClosed (evs.foldl navStep s)) := by
    intro evs
    induction evs with
    | nil => intro s h; exact h
    | cons e evs ih => intro s h; exact ih _ (navStep_synced s e h)
  refine ⟨hsync events s0 (Or.inr h0), ?_, toggleMenu_closed_of_open _,
    toggleMenu_open_of_closed _, closeMenu_closed, ?_⟩
  · rintro ⟨⟨h1, -⟩, ⟨h2, -⟩⟩
    rw [h1] at h2
    exact Bool.noConfusion h2
  · intro s i a b
    simp only [navStep, documentClickListener]
    split_ifs
    · exact closeMenu_closed _
    · exact closeMenu_closed _

/-- C10, at the page as the markup gives it: open the menu, click outside,
open again, press Escape, open again, widen the window. -/
theorem menu_markers_synchronized_witness :
    MenuOpen (([NavEvent.toggleClick, NavEvent.documentClick false false,
        NavEvent.toggleClick, NavEvent.keydown "Escape", NavEvent.toggleClick,
        NavEvent.resizeSettled 1024]).foldl navStep initialNav) ∨
      MenuClosed (([NavEvent.toggleClick, NavEvent.documentClick false false,
        NavEvent.toggleClick, NavEvent.keydown "Escape", NavEvent.toggleClick,
        NavEvent.resizeSettled 1024]).foldl navStep initialNav) :=
  (menu_markers_synchronized initialNav (by simp [MenuClosed, initialNav]) _).1

/-! ## Typing animation -/

theorem typing_sample_texts : ((typingAnimationOf [js "ab", js "c"]).run 7).map Prod.fst =
    some [js "a", js "ab", js "a", js "", js "c", js "", js "a"] := by decide

namespace TypingAnimation

theorem run_add (m n : Nat) (a : TypingAnimation) :
    run (m + n) a =
      (run m a).bind fun r => (run n r.2).map fun r2 => (r.1 ++ r2.1, r2.2) := by
  induction m generalizing a with
  | zero =>
    simp only [Nat.zero_add, run, Option.some_bind, List.nil_append]
    cases run n a <;> rfl
  | succ m ih =>
    rw [Nat.succ_add]
    simp only [run]
    cases h1 : animate a with
    | none => rfl
    | some r =>
      obtain ⟨a1, d⟩ := r
      simp only [ih a1]
      cases h2 : run m a1 with
      | none => rfl
      | some r1 =>
        obtain ⟨t1, a2⟩ := r1
        simp only [Option.some_bind]
        cases h3 : run n a2 with
        | none => rfl
        | some r2 => rfl

/-- Typing: from `charIndex = c` with `k ≥ 1` code units still to type, `k`
calls display the next `k` leading segments and switch to deleting. -/
theorem run_typing (p : JSString) (k : Nat) :
    ∀ (c : Nat) (a : TypingAnimation), a.phrases[a.phraseIndex]? = some p →
      a.isDeleting = false → a.charIndex = (c : Int) → c + (k + 1) = p.length →
      run (k + 1) a =
        some ((List.range (k + 1)).map (fun j => p.take (c + j + 1)),
          { a with charIndex := (p.length : Int), isDeleting := true, textContent := p }) := by
  induction k with
  | zero =>
    intro c a hp hd hc hlen
    have h1 : a.charIndex + 1 = (p.length : Int) := by rw [hc]; omega
    have h2 : (a.charIndex + 1).toNat = p.length := by rw [h1]; simp
    simp only [run, animate, hp, hd, h1, h2, substring0, Bool.false_eq_true, if_false, if_true,
      List.take_length]
    simp [← hlen, List.range_succ]
  | succ k ih =>
    intro c a hp hd hc hlen
    have h1 : a.charIndex + 1 ≠ (p.length : Int) := by rw [hc]; omega
    have h2 : (a.charIndex + 1).toNat = c + 1 := by rw [hc]; omega
    have hstep : animate a =
        some ({ a with charIndex := a.charIndex + 1, textContent := p.take (c + 1) },
          a.typingSpeed) := by
      simp only [animate, hp, hd, h1, h2, substring0, Bool.false_eq_true, if_false]
    have hrec := ih (c + 1)
      { a with charIndex := a.charIndex + 1, textContent := p.take (c + 1) }
      hp hd (by simp only [hc]; omega) (by omega)
    have hlist : (List.range (k + 1 + 1)).map (fun j => p.take (c + j + 1)) =
        p.take (c + 1) :: (List.range (k + 1)).map (fun j => p.take (c + 1 + j + 1)) := by
      rw [List.range_succ_eq_map, List.map_cons, List.map_map]
      refine congrArg₂ _ rfl (List.map_congr_left ?_)
      intro j _
      simp only [Function.comp]
      congr 1
      omega
    rw [run, hstep]
    simp only [hrec]
    rw [hlist]

/-- Deleting: from `charIndex = c + 1`, `c + 1` calls display the shorter
leading segments down to the empty text and advance to the next phrase. -/
theorem run_deleting (p : JSString) (c : Nat) :
    ∀ (a : TypingAnimation), a.phrases[a.phraseIndex]? = some p →
      a.isDeleting = true → a.charIndex = ((c + 1 : Nat) : Int) →
      run (c + 1) a =
        some ((List.range (c + 1)).map (fun j => p.take (c - j)),
          { a with charIndex := 0, isDeleting := false, textContent := [],
                   phraseIndex := (a.phraseIndex + 1) % a.phrases.length }) := by
  induction c with
  | zero =>
    intro a hp hd hc
    have h1 : a.charIndex - 1 = 0 := by rw [hc]; omega
    simp only [run, animate, hp, hd, h1, substring0, if_true]
    simp
  | succ c ih =>
    intro a hp hd hc
    have h1 : a.charIndex - 1 ≠ 0 := by rw [hc]; omega
    have h2 : (a.charIndex - 1).toNat = c + 1 := by rw [hc]; omega
    have hstep : animate a =
        some ({ a with charIndex := a.charIndex - 1, textContent := p.take (c + 1) },
          a.deletingSpeed) := by
      simp only [animate, hp, hd, h1, h2, substring0, if_true, if_false]
    have hrec := ih
      { a with charIndex := a.charIndex - 1, textContent := p.take (c + 1) }
      hp hd (by simp only [hc]; omega)
    have hlist : (List.range (c + 1 + 1)).map (fun j => p.take (c + 1 - j)) =
        p.take (c + 1) :: (List.range (c + 1)).map (fun j => p.take (c - j)) := by
      rw [List.range_succ_eq_map, List.map_cons, List.map_map]
      refine congrArg₂ _ rfl (List.map_congr_left ?_)
      intro j _
      simp only [Function.comp]
      congr 1
      omega
    rw [run, hstep]
    simp only [hrec]
    rw [hlist]

end TypingAnimation

/-- C9. With every phrase non-empty, from the typing state at `charIndex = 0`
of phrase `p` (the phrase at the current index), the first `2 * length p`
calls of `animate` all succeed and display the leading segments of `p` of
lengths 1, 2, ..., length `p`, then length `p` - 1, ..., 1, 0; afterwards
the object is in the typing state at `charIndex = 0` of the next phrase,
the index wrapping to 0 after the last one. For the phrases "ab", "c" the
first seven texts are "a", "ab", "a", "", "c", "", "a". -/
theorem typing_cycle (a : TypingAnimation) (p : JSString)
    (hne : ∀ q ∈ a.phrases, q ≠ []) (hp : a.phrases[a.phraseIndex]? = some p)
    (hc : a.charIndex = 0) (hd : a.isDeleting = false) :
    a.run (2 * p.length) =
      some ((List.range p.length).map (fun k => p.take (k + 1)) ++
              (List.range p.length).map (fun k => p.take (p.length - 1 - k)),
            { a with phraseIndex := (a.phraseIndex + 1) % a.phrases.length,
                     charIndex := 0, isDeleting := false, textContent := [] }) ∧
    ((typingAnimationOf [js "ab", js "c"]).run 7).map Prod.fst =
      some [js "a", js "ab", js "a", js "", js "c", js "", js "a"] := by
  refine ⟨?_, by decide⟩
  have hmem : p ∈ a.phrases := List.getElem?_mem hp
  have hpne : p ≠ [] := hne p hmem
  obtain ⟨k, hk⟩ : ∃ k, p.length = k + 1 := by
    cases p with
    | nil => exact (hpne rfl).elim
    | cons x xs => exact ⟨xs.length, rfl⟩
  have h1 := TypingAnimation.run_typing p k 0 a hp hd (by simp [hc]) (by omega)
  have h2 := TypingAnimation.run_deleting p k
    { a with charIndex := (p.length : Int), isDeleting := true, textContent := p }
    hp rfl (by simp [hk])
  rw [two_mul, TypingAnimation.run_add]
  rw [hk] at *
  rw [h1]
  simp only [Option.some_bind, h2, Option.map_some']
  congr 3
  · apply List.map_congr_left
    intro j _
    congr 1
    omega

/-- C9, at the phrases "ab", "c": four calls type and delete "ab" and leave
the object at the start of "c". -/
theorem typing_cycle_witness :
    (typingAnimationOf [js "ab", js "c"]).run 4 =
      some ([js "a", js "ab", js "a", js ""],
        { typingAnimationOf [js "ab", js "c"] with phraseIndex := 1 }) :=
  (typing_cycle (typingAnimationOf [js "ab", js "c"]) (js "ab") (by decide) rfl rfl rfl).1

/-! ## Stat counter -/

theorem fl_bounds (fl : ℚ → ℚ) (hfl : ∀ x : ℚ, |fl x - x| ≤ |x| / 1000) (x : ℚ) :
    x - |x| / 1000 ≤ fl x ∧ fl x ≤ x + |x| / 1000 := by
  have h := abs_le.1 (hfl x)
  constructor <;> linarith [h.1, h.2]

theorem fl_duration_bounds (fl : ℚ → ℚ) (hfl : ∀ x : ℚ, |fl x - x| ≤ |x| / 1000) :
    (124875 : ℚ) / 1000 ≤ fl (2000 / 16) ∧ fl (2000 / 16) ≤ 125125 / 1000 := by
  have h := fl_bounds fl hfl (2000 / 16)
  have habs : |(2000 : ℚ) / 16| = 125 := by
    rw [abs_of_pos (by norm_num)]; norm_num
  rw [habs] at h
  constructor
  · linarith [h.1]
  · linarith [h.2]

/-- For a positive target every frame that starts below the target adds at
least `target / 145` to the running total. -/
theorem stat_progress (fl : ℚ → ℚ) (hfl : ∀ x : ℚ, |fl x - x| ≤ |x| / 1000) (t c : ℚ)
    (ht : 0 < t) (hc0 : 0 ≤ c) (hct : c < t) :
    c + t / 145 ≤ fl (c + fl (t / fl (2000 / 16))) := by
  obtain ⟨hD1, hD2⟩ := fl_duration_bounds fl hfl
  have hDpos : (0 : ℚ) < fl (2000 / 16) := by linarith
  have hq0 : 0 < t / fl (2000 / 16) := div_pos ht hDpos
  have hqD : t / fl (2000 / 16) * fl (2000 / 16) = t := by
    field_simp
  have hq1 : t ≤ t / fl (2000 / 16) * (125125 / 1000) := by
    calc t = t / fl (2000 / 16) * fl (2000 / 16) := hqD.symm
      _ ≤ t / fl (2000 / 16) * (125125 / 1000) :=
        mul_le_mul_of_nonneg_left hD2 hq0.le
  have hinc := (fl_bounds fl hfl (t / fl (2000 / 16))).1
  rw [abs_of_pos hq0] at hinc
  have hinc0 : 0 ≤ fl (t / fl (2000 / 16)) := by linarith
  have hx := (fl_bounds fl hfl (c + fl (t / fl (2000 / 16)))).1
  rw [abs_of_nonneg (by linarith)] at hx
  linarith

/-- For a target that is not positive the first frame already ends the
animation. -/
theorem stat_first_frame_nonpos (fl : ℚ → ℚ) (hfl : ∀ x : ℚ, |fl x - x| ≤ |x| / 1000)
    (t : ℚ) (ht : t ≤ 0) : t ≤ fl (0 + fl (t / fl (2000 / 16))) := by
  obtain ⟨hD1, hD2⟩ := fl_duration_bounds fl hfl
  have hDpos : (0 : ℚ) < fl (2000 / 16) := by linarith
  have hq0 : t / fl (2000 / 16) ≤ 0 := div_nonpos_of_nonpos_of_nonneg ht hDpos.le
  have hqD : t / fl (2000 / 16) * fl (2000 / 16) = t := by
    field_simp
  have hq1 : t ≤ t / fl (2000 / 16) * (124875 / 1000) := by
    calc t = t / fl (2000 / 16) * fl (2000 / 16) := hqD.symm
      _ ≤ t / fl (2000 / 16) * (124875 / 1000) :=
        mul_le_mul_of_nonpos_left hD1 hq0
  have hinc := fl_bounds fl hfl (t / fl (2000 / 16))
  rw [abs_of_nonpos hq0] at hinc
  have hinc0 : fl (t / fl (2000 / 16)) ≤ 0 := by linarith [hinc.2]
  have hx := (fl_bounds fl hfl (0 + fl (t / fl (2000 / 16)))).1
  rw [zero_add] at hx ⊢
  rw [abs_of_nonpos hinc0] at hx
  linarith [hinc.1]

/-- More fuel does not change a run that has ended. -/
theorem updateCount_fuel_mono (fl : ℚ → ℚ) (target : ℤ) (inc : ℚ) (n : Nat) :
    ∀ (c : ℚ) (m : Nat), n ≤ m → (updateCount fl target inc n c).2 = false →
      updateCount fl target inc m c = updateCount fl target inc n c := by
  induction n with
  | zero => intro c m _ h; simp [updateCount] at h
  | succ n ih =>
    intro c m hm h
    obtain ⟨m, rfl⟩ : ∃ k, m = k + 1 := ⟨m - 1, by omega⟩
    simp only [updateCount] at h ⊢
    by_cases hlt : fl (c + inc) < (target : ℚ)
    · simp only [hlt, if_true] at h ⊢
      rw [ih (fl (c + inc)) m (by omega) h]
    · simp only [hlt, if_false]

/-- The run for a positive target, from a running total below the target. -/
theorem updateCount_pos (fl : ℚ → ℚ) (hfl : ∀ x : ℚ, |fl x - x| ≤ |x| / 1000)
    (target : ℤ) (ht : 0 < (target : ℚ)) (n : Nat) :
    ∀ c : ℚ, 0 ≤ c → c < (target : ℚ) → (target : ℚ) * (145 - n) / 145 ≤ c →
      (updateCount fl target (fl ((target : ℚ) / fl (2000 / 16))) n c).2 = false ∧
      (updateCount fl target (fl ((target : ℚ) / fl (2000 / 16))) n c).1.Pairwise (· ≤ ·) ∧
      (∀ v ∈ (updateCount fl target (fl ((target : ℚ) / fl (2000 / 16))) n c).1,
        ⌊c⌋ ≤ v ∧ v ≤ target) ∧
      (updateCount fl target (fl ((target : ℚ) / fl (2000 / 16))) n c).1.getLast? =
        some target ∧
      (updateCount fl target (fl ((target : ℚ) / fl (2000 / 16))) n c).1.length ≤ n := by
  induction n with
  | zero =>
    intro c _ hct hb
    exfalso
    simp only [Nat.cast_zero, sub_zero] at hb
    linarith
  | succ n ih =>
    intro c hc0 hct hb
    have hprog := stat_progress fl hfl target c ht hc0 hct
    have hfloor_c : ⌊c⌋ ≤ target := by
      have h1 : ((⌊c⌋ : ℤ) : ℚ) ≤ c := Int.floor_le c
      have h2 : ((⌊c⌋ : ℤ) : ℚ) < (target : ℚ) := lt_of_le_of_lt h1 hct
      exact le_of_lt (by exact_mod_cast h2)
    simp only [updateCount]
    by_cases hlt : fl (c + fl ((target : ℚ) / fl (2000 / 16))) < (target : ℚ)
    · simp only [hlt, if_true]
      have hc1 : c ≤ fl (c + fl ((target : ℚ) / fl (2000 / 16))) := by
        have : 0 ≤ (target : ℚ) / 145 := by positivity
        linarith
      have hb1 : (target : ℚ) * (145 - n) / 145 ≤
          fl (c + fl ((target : ℚ) / fl (2000 / 16))) := by
        push_cast at hb
        linarith
      obtain ⟨r1, r2, r3, r4, r5⟩ := ih _ (le_trans hc0 hc1) hlt hb1
      have hfl1 : ⌊fl (c + fl ((target : ℚ) / fl (2000 / 16)))⌋ ≤ target := by
        have h1 := Int.floor_le (fl (c + fl ((target : ℚ) / fl (2000 / 16))))
        have h2 := lt_of_le_of_lt h1 hlt
        exact le_of_lt (by exact_mod_cast h2)
      have hmono : ⌊c⌋ ≤ ⌊fl (c + fl ((target : ℚ) / fl (2000 / 16)))⌋ :=
        Int.floor_mono hc1
      refine ⟨r1, ?_, ?_, ?_, ?_⟩
      · exact List.pairwise_cons.2 ⟨fun v hv => (r3 v hv).1, r2⟩
      · intro v hv
        rcases List.mem_cons.1 hv with rfl | hv
        · exact ⟨hmono, hfl1⟩
        · exact ⟨le_trans hmono (r3 v hv).1, (r3 v hv).2⟩
      · rw [List.getLast?_cons, r4]; rfl
      · simp only [List.length_cons]; omega
    · simp only [hlt, if_false]
      refine ⟨trivial, List.pairwise_singleton _ _, ?_, rfl, by simp⟩
      intro v hv
      rw [List.mem_singleton] at hv
      subst hv
      exact ⟨hfloor_c, le_refl _⟩

/-- C8. Let every arithmetic result be rounded with a relative error of at
most 1/1000 (exact arithmetic and IEEE double rounding in the normal range
are instances). Then for every integer target the stat counter stops: with
145 frames or more available no further frame is requested, the numbers
displayed are the same whatever the surplus of frames and number at most 145,
they never decrease, none exceeds the target, and the last one is the
target. -/
theorem stat_counter_reaches_target (fl : ℚ → ℚ)
    (hfl : ∀ x : ℚ, |fl x - x| ≤ |x| / 1000) (target : ℤ) (fuel : Nat) (hfuel : 145 ≤ fuel) :
    (animateStat fl target fuel).2 = false ∧
    (animateStat fl target fuel).1 = (animateStat fl target 145).1 ∧
    (animateStat fl target fuel).1.length ≤ 145 ∧
    (animateStat fl target fuel).1.Pairwise (· ≤ ·) ∧
    (∀ v ∈ (animateStat fl target fuel).1, v ≤ target) ∧
    (animateStat fl target fuel).1.getLast? = some target := by
  have h145 : (animateStat fl target 145).2 = false ∧
      (animateStat fl target 145).1.length ≤ 145 ∧
      (animateStat fl target 145).1.Pairwise (· ≤ ·) ∧
      (∀ v ∈ (animateStat fl target 145).1, v ≤ target) ∧
      (animateStat fl target 145).1.getLast? = some target := by
    simp only [animateStat]
    by_cases ht : 0 < (target : ℚ)
    · obtain ⟨r1, r2, r3, r4, r5⟩ :=
        updateCount_pos fl hfl target ht 145 0 (le_refl _) ht (by norm_num)
      exact ⟨r1, r5, r2, fun v hv => (r3 v hv).2, r4⟩
    · have hge := stat_first_frame_nonpos fl hfl target (not_lt.1 ht)
      have hnlt : ¬ fl (0 + fl ((target : ℚ) / fl (2000 / 16))) < (target : ℚ) :=
        not_lt.2 hge
      have hstep : updateCount fl target (fl ((target : ℚ) / fl (2000 / 16))) (144 + 1) 0 =
          ([target], false) := by
        rw [updateCount]
        simp only [hnlt, if_false]
      have hstep2 : updateCount fl target (fl ((target : ℚ) / fl (2000 / 16))) 145 0 =
          ([target], false) := hstep
      rw [hstep2]
      refine ⟨rfl, by simp, List.pairwise_singleton _ _, ?_, rfl⟩
      intro v hv
      rw [List.mem_singleton] at hv
      exact le_of_eq hv
  have heq : animateStat fl target fuel = animateStat fl target 145 := by
    simp only [animateStat] at h145 ⊢
    exact updateCount_fuel_mono fl target _ 145 0 fuel hfuel h145.1
  rw [heq]
  exact ⟨h145.1, rfl, h145.2.1, h145.2.2.1, h145.2.2.2.1, h145.2.2.2.2⟩

/-- C8, in exact arithmetic at target 100: the counter stops and its last
displayed value is 100. -/
theorem stat_counter_reaches_target_witness :
    (animateStat id 100 145).2 = false ∧ (animateStat id 100 145).1.getLast? = some 100 :=
  ⟨(stat_counter_reaches_target id (fun x => by simp; positivity) 100 145 (le_refl _)).1,
    (stat_counter_reaches_target id (fun x => by simp; positivity) 100 145 (le_refl _)).2.2.2.2.2⟩

/-! ## About section -/

theorem mem_classListAdd (marked : List Nat) (element x : Nat) (h : x ∈ marked) :
    x ∈ classListAdd marked element := by
  unfold classListAdd
  split_ifs
  · exact h
  · exact List.mem_append_left _ h

/-- The frames of a stat element display what the counter of the stat
section computes from the element's target and running total. -/
theorem statElement_frames_eq (fl : ℚ → ℚ) (fuel : Nat) :
    ∀ stat : StatElement,
      StatElement.frames fl fuel stat =
        updateCount fl stat.target (fl ((stat.target : ℚ) / fl (2000 / 16))) fuel
          stat.current := by
  induction fuel with
  | zero => intro stat; rfl
  | succ n ih =>
    intro stat
    simp only [StatElement.frames, StatElement.updateCount, updateCount]
    by_cases hlt : fl (stat.current + fl ((stat.target : ℚ) / fl (2000 / 16))) <
        (stat.target : ℚ)
    · simp only [hlt, if_true, Option.toList, List.singleton_append]
      rw [ih]
    · simp only [hlt, if_false, Bool.false_eq_true, Option.toList]

/-- What one batch of entries does to the object. -/
theorem handleIntersect_summary (entries : List IntersectionEntry) :
    ∀ a : AboutAnimator,
      (a.handleIntersect entries).timers =
        a.timers ++
          (if !a.animated && entries.any (fun entry => entry.isIntersecting) then [1000]
           else []) ∧
      (a.handleIntersect entries).animated =
        (a.animated || entries.any (fun entry => entry.isIntersecting)) ∧
      (∀ x ∈ a.visible, x ∈ (a.handleIntersect entries).visible) ∧
      (a.handleIntersect entries).statsAnimated = a.statsAnimated ∧
      (a.handleIntersect entries).statNumbers = a.statNumbers := by
  induction entries with
  | nil => intro a; simp [AboutAnimator.handleIntersect]
  | cons e es ih =>
    intro a
    have hcons : a.handleIntersect (e :: es) =
        AboutAnimator.handleIntersect
          (if e.isIntersecting && !a.animated then
            { a with visible := classListAdd a.visible e.target
                     animated := true
                     timers := a.timers ++ [1000] }
           else a) es := rfl
    rw [hcons]
    by_cases hc : (e.isIntersecting && !a.animated) = true
    · rw [if_pos hc]
      obtain ⟨h1, h2, h3, h4, h5⟩ := ih
        { a with visible := classListAdd a.visible e.target
                 animated := true
                 timers := a.timers ++ [1000] }
      simp only [Bool.and_eq_true, Bool.not_eq_true'] at hc
      refine ⟨?_, ?_, ?_, ?_, ?_⟩
      · rw [h1]; simp [hc.1, hc.2]
      · rw [h2]; simp [hc.1, hc.2]
      · intro x hx
        exact h3 x (mem_classListAdd _ _ _ hx)
      · rw [h4]
      · rw [h5]
    · rw [if_neg hc]
      obtain ⟨h1, h2, h3, h4, h5⟩ := ih a
      refine ⟨?_, ?_, h3, h4, h5⟩
      · rw [h1]
        cases ha : a.animated
        · have he : e.isIntersecting = false := by
            cases hi : e.isIntersecting
            · rfl
            · exact absurd (by simp [hi, ha]) hc
          simp [he]
        · simp
      · rw [h2]
        cases ha : a.animated
        · have he : e.isIntersecting = false := by
            cases hi : e.isIntersecting
            · rfl
            · exact absurd (by simp [hi, ha]) hc
          simp [he]
        · simp

/-- What one event does to the object. -/
theorem aboutStep_summary (fl : ℚ → ℚ) (a : AboutAnimator) (e : AboutEvent) :
    (aboutStep fl a e).timers =
      a.timers ++ (if !a.animated && someIntersecting [e] then [1000] else []) ∧
    (aboutStep fl a e).animated = (a.animated || someIntersecting [e]) ∧
    (∀ x ∈ a.visible, x ∈ (aboutStep fl a e).visible) ∧
    (a.statsAnimated = true → (aboutStep fl a e).statsAnimated = true) := by
  cases e with
  | intersect entries =>
    obtain ⟨h1, h2, h3, h4, -⟩ := handleIntersect_summary entries a
    refine ⟨?_, ?_, h3, fun h => by simp only [aboutStep]; rw [h4, h]⟩
    · simp only [aboutStep, h1, someIntersecting, List.any_cons, List.any_nil, Bool.or_false]
    · simp only [aboutStep, h2, someIntersecting, List.any_cons, List.any_nil, Bool.or_false]
  | timerFires =>
    simp only [aboutStep, AboutAnimator.animateStats, someIntersecting, List.any_cons,
      List.any_nil, Bool.or_false, Bool.and_false, Bool.false_eq_true, if_false,
      List.append_nil]
    split_ifs <;> simp
  | animationFrame =>
    simp [aboutStep, AboutAnimator.animationFrame, someIntersecting]

theorem someIntersecting_cons (e : AboutEvent) (es : List AboutEvent) :
    someIntersecting (e :: es) = (someIntersecting [e] || someIntersecting es) := by
  simp [someIntersecting]

/-- What a sequence of events does to the object. -/
theorem aboutRun_summary (fl : ℚ → ℚ) (events : List AboutEvent) :
    ∀ a : AboutAnimator,
      (events.foldl (aboutStep fl) a).timers =
        a.timers ++ (if !a.animated && someIntersecting events then [1000] else []) ∧
      (events.foldl (aboutStep fl) a).animated = (a.animated || someIntersecting events) ∧
      (∀ x ∈ a.visible, x ∈ (events.foldl (aboutStep fl) a).visible) ∧
      (a.statsAnimated = true → (events.foldl (aboutStep fl) a).statsAnimated = true) := by
  induction events with
  | nil => intro a; simp [someIntersecting]
  | cons e es ih =>
    intro a
    obtain ⟨s1, s2, s3, s4⟩ := aboutStep_summary fl a e
    obtain ⟨r1, r2, r3, r4⟩ := ih (aboutStep fl a e)
    simp only [List.foldl_cons]
    refine ⟨?_, ?_, fun x hx => r3 x (s3 x hx), fun h => r4 (s4 h)⟩
    · rw [r1, s1, s2, someIntersecting_cons e es]
      generalize someIntersecting [e] = x
      generalize someIntersecting es = y
      cases a.animated <;> cases x <;> cases y <;> simp
    · rw [r2, s2, someIntersecting_cons e es, Bool.or_assoc]

/-- C11. Through every sequence of intersection callbacks, timer firings
and animation frames: an element that carries `visible` keeps it; `animated`
once true stays true, and is true afterwards exactly when it was before or
some delivered entry was intersecting; the timers set are one timer of 1000
ms for `animateStats` when `animated` was false and some delivered entry was
intersecting, and none otherwise; `statsAnimated` once true stays true; a
second call of `animateStats` changes nothing, and neither does any call
made when `statsAnimated` is already true. -/
theorem about_reveal_one_shot (fl : ℚ → ℚ) (a : AboutAnimator) (events : List AboutEvent) :
    (∀ x ∈ a.visible, x ∈ (events.foldl (aboutStep fl) a).visible) ∧
    (a.animated = true → (events.foldl (aboutStep fl) a).animated = true) ∧
    (events.foldl (aboutStep fl) a).animated = (a.animated || someIntersecting events) ∧
    (events.foldl (aboutStep fl) a).timers =
      a.timers ++ (if !a.animated && someIntersecting events then [1000] else []) ∧
    (a.statsAnimated = true → (events.foldl (aboutStep fl) a).statsAnimated = true) ∧
    (a.animateStats fl).statsAnimated = true ∧
    (a.animateStats fl).animateStats fl = a.animateStats fl ∧
    (a.statsAnimated = true → a.animateStats fl = a) := by
  obtain ⟨h1, h2, h3, h4⟩ := aboutRun_summary fl events a
  have hguard : ∀ b : AboutAnimator, b.statsAnimated = true → b.animateStats fl = b := by
    intro b hb
    simp [AboutAnimator.animateStats, hb]
  have hset : (a.animateStats fl).statsAnimated = true := by
    unfold AboutAnimator.animateStats
    split_ifs with h
    · exact h
    · rfl
  refine ⟨h3, fun ha => by rw [h2, ha]; rfl, h2, h1, h4, hset, hguard _ hset, hguard a⟩

/-- C11, at the freshly constructed object: with exit and re-entry of the
about element exactly one timer is set. -/
theorem about_reveal_one_shot_witness :
    (aboutSampleEvents.foldl (aboutStep id) initialAbout).timers = [1000] ∧
    (aboutSampleEvents.foldl (aboutStep id) initialAbout).animated = true :=
  ⟨(about_reveal_one_shot id initialAbout aboutSampleEvents).2.2.2.1,
    (about_reveal_one_shot id initialAbout aboutSampleEvents).2.2.1⟩

/-! ## Project cards -/

theorem projects_sample_code :
    (threeProjects.handleIntersect [{ target := 2, isIntersecting := true }]).timers =
      [(200, 2)] := by decide

theorem projects_sample_spec :
    (threeProjects.handleIntersectSpec [{ target := 2, isIntersecting := true }]).timers =
      [(0, 2)] := by decide

theorem arrayIndexOf_of_getElem? (x : Nat) (cards : List Nat) :
    ∀ (start i : Nat), cards.Nodup → cards[i]? = some x →
      arrayIndexOf x cards start = ((start + i : Nat) : Int) := by
  induction cards with
  | nil => intro start i _ h; simp at h
  | cons c cs ih =>
    intro start i hnd h
    cases i with
    | zero =>
      simp only [List.getElem?_cons_zero, Option.some.injEq] at h
      simp [arrayIndexOf, h]
    | succ j =>
      simp only [List.getElem?_cons_succ] at h
      have hx : x ∈ cs := List.getElem?_mem h
      have hc : c ≠ x := by
        rintro rfl
        exact (List.nodup_cons.1 hnd).1 hx
      simp only [arrayIndexOf, hc, if_false]
      rw [ih (start + 1) j (List.nodup_cons.1 hnd).2 h]
      congr 1
      omega

/-- What one batch of entries does to the project cards. -/
theorem projects_handleIntersect_eq (entries : List IntersectionEntry) :
    ∀ a : ProjectsAnimator,
      a.handleIntersect entries =
        { a with
          timers := a.timers ++
            ((entries.filter fun entry => entry.isIntersecting).map fun entry =>
              (arrayIndexOf entry.target a.projectCards 0 * 100, entry.target))
          observed := a.observed.filter fun x =>
            ∀ entry ∈ entries, entry.isIntersecting = true → x ≠ entry.target } := by
  induction entries with
  | nil => intro a; simp [ProjectsAnimator.handleIntersect]
  | cons e es ih =>
    intro a
    have hcons : a.handleIntersect (e :: es) =
        ProjectsAnimator.handleIntersect
          (if e.isIntersecting then
            { a with timers := a.timers ++
                       [(arrayIndexOf e.target a.projectCards 0 * 100, e.target)]
                     observed := a.observed.filter fun x => x ≠ e.target }
           else a) es := rfl
    rw [hcons]
    cases he : e.isIntersecting
    · simp only [Bool.false_eq_true, if_false, ih a, List.filter_cons, he]
      congr 1
      apply List.filter_congr
      intro x _
      simp [he]
    · simp only [if_true, ih, List.filter_cons, he, List.map_cons, List.append_assoc,
        List.singleton_append, List.filter_filter]
      congr 1
      apply List.filter_congr
      intro x _
      simp only [he, List.forall_mem_cons, forall_const, ne_eq, decide_not, Bool.decide_and]
      exact Bool.and_comm _ _

/-- C12, as the code has it: in `ProjectsAnimator.handleIntersect` every
intersecting entry of a batch sets one timer whose delay is 100 ms times the
index of its card in `projectCards` (`indexOf`, the card's position among all
project cards), the timers being set in the order of the batch, and its card
is no longer observed; entries that do not intersect do nothing; the timer,
when it fires, marks its card `visible`. The delay equals 100 ms times the
position among the intersecting entries of the batch in the case where those
entries are the first cards of the page, in page order. -/
theorem projects_stagger_by_card_index (a : ProjectsAnimator)
    (entries : List IntersectionEntry) :
    (a.handleIntersect entries).timers =
      a.timers ++
        ((entries.filter fun entry => entry.isIntersecting).map fun entry =>
          (arrayIndexOf entry.target a.projectCards 0 * 100, entry.target)) ∧
    (a.handleIntersect entries).observed =
      (a.observed.filter fun x =>
        ∀ entry ∈ entries, entry.isIntersecting = true → x ≠ entry.target) ∧
    (∀ entry ∈ entries, entry.isIntersecting = true →
      entry.target ∉ (a.handleIntersect entries).observed) ∧
    (a.handleIntersect entries).projectCards = a.projectCards ∧
    (a.handleIntersect entries).visible = a.visible ∧
    (a.projectCards.Nodup → ∀ (i x : Nat), a.projectCards[i]? = some x →
      arrayIndexOf x a.projectCards 0 * 100 = (i : Int) * 100) ∧
    (∀ x : Nat, x ∈ (a.timerFires x).visible) ∧
    (a.projectCards.Nodup → ∀ k : Nat,
      ((entries.filter fun entry => entry.isIntersecting).map fun entry => entry.target) =
        a.projectCards.take k →
      (a.handleIntersect entries).timers = (a.handleIntersectSpec entries).timers) := by
  rw [projects_handleIntersect_eq entries a]
  refine ⟨rfl, rfl, ?_, rfl, rfl, ?_, ?_, ?_⟩
  · intro entry hmem hint hobs
    have := (List.mem_filter.1 hobs).2
    simp only [decide_eq_true_eq] at this
    exact this entry hmem hint rfl
  · intro hnd i x hx
    rw [arrayIndexOf_of_getElem? x a.projectCards 0 i hnd hx]
    simp
  · intro x
    simp only [ProjectsAnimator.timerFires, classListAdd]
    split_ifs with h
    · exact h
    · simp
  · intro hnd k hk
    simp only [ProjectsAnimator.handleIntersectSpec]
    congr 1
    apply List.ext_getElem?
    intro n
    rw [List.getElem?_map, List.getElem?_map, List.getElem?_enum]
    cases hn : (entries.filter fun entry => entry.isIntersecting)[n]? with
    | none => rfl
    | some e =>
      have h1 : ((entries.filter fun entry => entry.isIntersecting).map
          fun entry => entry.target)[n]? = some e.target := by
        rw [List.getElem?_map, hn]; rfl
      rw [hk, List.getElem?_take] at h1
      have h2 : a.projectCards[n]? = some e.target := by
        split_ifs at h1
        · exact h1
      simp only [Option.map_some']
      rw [arrayIndexOf_of_getElem? e.target a.projectCards 0 n hnd h2]
      simp

/-- C12 as stated fails: with three project cards, a batch whose only
entry is the third card intersecting sets a timer of 200 ms (its index 2
among all cards), while its position among the intersecting entries of the
batch is 0 and would give 0 ms. -/
theorem projects_stagger_counterexample :
    (threeProjects.handleIntersect [{ target := 2, isIntersecting := true }]).timers =
      [(200, 2)] ∧
    (threeProjects.handleIntersectSpec [{ target := 2, isIntersecting := true }]).timers =
      [(0, 2)] ∧
    threeProjects.handleIntersect [{ target := 2, isIntersecting := true }] ≠
      threeProjects.handleIntersectSpec [{ target := 2, isIntersecting := true }] := by
  decide

/-! ## Stat counter in exact arithmetic -/

theorem exact_total_step (target : ℤ) (k : Nat) :
    id ((k : ℚ) * (target : ℚ) / 125 + id ((target : ℚ) / id (2000 / 16))) =
      ((k + 1 : Nat) : ℚ) * (target : ℚ) / 125 := by
  simp only [id]
  push_cast
  ring

/-- In exact arithmetic the running total after `k` updates is
`k * target / 125`; from there the counter needs the remaining updates up to
the 125th, and no fewer. -/
theorem updateCount_exact (target : ℤ) (ht : 0 < target) (m : Nat) :
    ∀ (k fuel : Nat), k + m + 1 = 125 → m + 1 ≤ fuel →
      updateCount id target (id ((target : ℚ) / id (2000 / 16))) fuel
          ((k : ℚ) * (target : ℚ) / 125) =
        ((List.range m).map (fun i => ⌊((k + i + 1 : Nat) : ℚ) * (target : ℚ) / 125⌋) ++
          [target], false) := by
  have htq : (0 : ℚ) < (target : ℚ) := by exact_mod_cast ht
  induction m with
  | zero =>
    intro k fuel hk hfuel
    obtain ⟨f, rfl⟩ : ∃ f, fuel = f + 1 := ⟨fuel - 1, by omega⟩
    have hk124 : k = 124 := by omega
    subst hk124
    rw [updateCount]
    simp only [exact_total_step]
    have hnot : ¬ (((124 + 1 : Nat) : ℚ) * (target : ℚ) / 125 < (target : ℚ)) := by
      push_cast
      intro h
      linarith
    simp only [hnot, if_false, List.range_zero, List.map_nil, List.nil_append]
  | succ m ih =>
    intro k fuel hk hfuel
    obtain ⟨f, rfl⟩ : ∃ f, fuel = f + 1 := ⟨fuel - 1, by omega⟩
    rw [updateCount]
    simp only [exact_total_step]
    have hlt : ((k + 1 : Nat) : ℚ) * (target : ℚ) / 125 < (target : ℚ) := by
      have hk1 : ((k + 1 : Nat) : ℚ) ≤ 124 := by
        have : k + 1 ≤ 124 := by omega
        exact_mod_cast this
      rw [div_lt_iff₀ (by norm_num)]
      nlinarith
    simp only [hlt, if_true]
    rw [ih (k + 1) f (by omega) (by omega)]
    rw [List.range_succ_eq_map, List.map_cons, List.map_map]
    simp only [List.cons_append, Nat.add_zero]
    congr 2
    congr 1
    apply List.map_congr_left
    intro i _
    simp only [Function.comp]
    have : k + 1 + i + 1 = k + Nat.succ i + 1 := by omega
    rw [this]

/-- The stat counter in exact arithmetic (no rounding): for every positive
integer target, given at least 125 frames it makes exactly 125 updates and
stops: update
number `i + 1`, for `i < 124`, displays the floor of `(i + 1) * target / 125`,
which is strictly below the target, and update number 125 displays the
target. -/
theorem stat_counter_exact_125 (target : ℤ) (ht : 0 < target) (fuel : Nat)
    (hfuel : 125 ≤ fuel) :
    animateStat id target fuel =
      ((List.range 124).map (fun i => ⌊((i + 1 : Nat) : ℚ) * (target : ℚ) / 125⌋) ++
        [target], false) ∧
    (animateStat id target fuel).1.length = 125 ∧
    (∀ i, i < 124 → ∃ v, (animateStat id target fuel).1[i]? = some v ∧ v < target) ∧
    (animateStat id target fuel).1[124]? = some target := by
  have htq : (0 : ℚ) < (target : ℚ) := by exact_mod_cast ht
  have hrun : animateStat id target fuel =
      ((List.range 124).map (fun i => ⌊((i + 1 : Nat) : ℚ) * (target : ℚ) / 125⌋) ++
        [target], false) := by
    have h := updateCount_exact target ht 124 0 fuel (by norm_num) (by omega)
    simp only [Nat.cast_zero, zero_mul, zero_div, Nat.zero_add] at h
    simpa only [animateStat] using h
  rw [hrun]
  refine ⟨rfl, by simp, ?_, ?_⟩
  · intro i hi
    refine ⟨⌊((i + 1 : Nat) : ℚ) * (target : ℚ) / 125⌋, ?_, ?_⟩
    · rw [List.getElem?_append_left (by simpa using hi)]
      simp [List.getElem?_range hi]
    · have h1 : ((i + 1 : Nat) : ℚ) ≤ 124 := by
        have : i + 1 ≤ 124 := by omega
        exact_mod_cast this
      have h2 : ((i + 1 : Nat) : ℚ) * (target : ℚ) / 125 < (target : ℚ) := by
        rw [div_lt_iff₀ (by norm_num)]
        nlinarith
      have h3 := Int.floor_le (((i + 1 : Nat) : ℚ) * (target : ℚ) / 125)
      have h4 := lt_of_le_of_lt h3 h2
      exact_mod_cast h4
  · rw [List.getElem?_append_right (by simp)]
    simp

/-- Exact arithmetic at target 100 with 125 frames: the counter makes 125
updates and the last displays 100. -/
theorem stat_counter_exact_125_witness :
    (animateStat id 100 125).1.length = 125 ∧ (animateStat id 100 125).1[124]? = some 100 ∧
      (animateStat id 100 125).2 = false :=
  ⟨(stat_counter_exact_125 100 (by norm_num) 125 (le_refl _)).2.1,
    (stat_counter_exact_125 100 (by norm_num) 125 (le_refl _)).2.2.2,
    congrArg Prod.snd (stat_counter_exact_125 100 (by norm_num) 125 (le_refl _)).1⟩

/-! ## Typing animation at an empty phrase -/

/-- At an empty phrase, in the typing state with a non-negative `charIndex`,
every call only increases `charIndex`. -/
theorem run_empty_phrase (n : Nat) :
    ∀ (c : Nat) (a : TypingAnimation), a.phrases[a.phraseIndex]? = some [] →
      a.isDeleting = false → a.charIndex = (c : Int) →
      a.run (n + 1) =
        some (List.replicate (n + 1) [],
          { a with charIndex := ((c + n + 1 : Nat) : Int), textContent := [] }) := by
  induction n with
  | zero =>
    intro c a hp hd hc
    have h1 : a.charIndex + 1 ≠ ((([] : JSString).length : Nat) : Int) := by
      rw [hc]; simp only [List.length_nil]; omega
    simp only [TypingAnimation.run, TypingAnimation.animate, hp, hd, h1, substring0,
      Bool.false_eq_true, if_false, List.take_nil, List.replicate]
    rw [hc]
    simp
  | succ n ih =>
    intro c a hp hd hc
    have h1 : a.charIndex + 1 ≠ ((([] : JSString).length : Nat) : Int) := by
      rw [hc]; simp only [List.length_nil]; omega
    have hstep : a.animate =
        some ({ a with charIndex := a.charIndex + 1, textContent := [] }, a.typingSpeed) := by
      simp only [TypingAnimation.animate, hp, hd, h1, substring0, Bool.false_eq_true,
        if_false, List.take_nil]
    have hrec := ih (c + 1) { a with charIndex := a.charIndex + 1, textContent := [] }
      hp hd (by simp only [hc]; omega)
    rw [TypingAnimation.run, hstep]
    simp only [hrec, List.replicate]
    have : c + 1 + n + 1 = c + (n + 1) + 1 := by omega
    rw [this]

/-- C14. When the phrase at the current index is empty and the object is in
the typing state with `charIndex = 0`, every number `k ≥ 1` of calls of
`animate` succeeds, displays the empty text each time and leaves `charIndex =
k`, `isDeleting = false` and `phraseIndex` unchanged: the animation never
reaches the next phrase. -/
theorem typing_empty_phrase_stuck (a : TypingAnimation)
    (hp : a.phrases[a.phraseIndex]? = some []) (hc : a.charIndex = 0)
    (hd : a.isDeleting = false) (k : Nat) (hk : 1 ≤ k) :
    a.run k =
      some (List.replicate k [], { a with charIndex := (k : Int), textContent := [] }) ∧
    (∃ texts b, a.run k = some (texts, b) ∧ b.charIndex = (k : Int) ∧
      b.isDeleting = false ∧ b.phraseIndex = a.phraseIndex ∧ b.phrases = a.phrases) := by
  obtain ⟨n, rfl⟩ : ∃ n, k = n + 1 := ⟨k - 1, by omega⟩
  have h := run_empty_phrase n 0 a hp hd (by simp [hc])
  simp only [Nat.zero_add] at h
  refine ⟨h, _, _, h, rfl, hd, rfl, rfl⟩

/-- C14, at the phrases "", "c": after five calls the object is still at
the first phrase, typing, with `charIndex = 5`. -/
theorem typing_empty_phrase_stuck_witness :
    typingWithEmptyPhrase.run 5 =
      some ([[], [], [], [], []], { typingWithEmptyPhrase with charIndex := 5 }) :=
  (typing_empty_phrase_stuck typingWithEmptyPhrase rfl rfl rfl 5 (by decide)).1

/-! ## Testimonials: what is stored -/

theorem sample_submissions_stored :
    ((sampleSubmissions.foldl (submitTestimonial asciiRuntime)
      (construct asciiRuntime emptyTestimonialsPage)).stored.map fun l => l.map fun t => t.name) =
    some [js "Ada", js "X", js "Sarah Johnson", js "Ifeoluwa Nasrat", js "Michael Chen"] := by
  decide

theorem newTestimonial_fields (form : TestimonialForm)
    (hname : trim form.clientName ≠ []) (htext : trim form.testimonialText ≠ []) :
    (newTestimonial form).name ≠ [] ∧ (newTestimonial form).text ≠ [] ∧
      (newTestimonial form).role ≠ [] := by
  refine ⟨hname, htext, ?_⟩
  unfold newTestimonial
  by_cases h : trim form.clientRole = []
  · simp only [h, ne_eq, not_true_eq_false, if_false]
    decide
  · simp only [h, ne_eq, not_false_eq_true, if_true]

/-- What one submission does to a page that has a stored sequence. -/
theorem submitTestimonial_stored (rt : StringRuntime) (p : TestimonialsPage)
    (form : TestimonialForm) (l : List Testimonial) (h : p.stored = some l) :
    (submitTestimonial rt p form).stored =
      some (if trim form.clientName = [] ∨ trim form.testimonialText = [] then l
            else newTestimonial form :: l) := by
  by_cases hc : trim form.clientName = [] ∨ trim form.testimonialText = []
  · simp [submitTestimonial, TestimonialsManager.handleSubmit, hc, h]
  · simp only [hc, if_false]
    simp [submitTestimonial, TestimonialsManager.handleSubmit, hc, h, renderTestimonials_eq,
      showToast]

/-- Submissions only put well-formed entries in front of what is stored. -/
theorem submissions_stored (rt : StringRuntime) (forms : List TestimonialForm) :
    ∀ (p : TestimonialsPage) (l : List Testimonial), p.stored = some l →
      ∃ added : List Testimonial,
        (forms.foldl (submitTestimonial rt) p).stored = some (added ++ l) ∧
        ∀ t ∈ added, t.name ≠ [] ∧ t.text ≠ [] ∧ t.role ≠ [] := by
  induction forms with
  | nil => intro p l h; exact ⟨[], by simpa using h, by simp⟩
  | cons form forms ih =>
    intro p l h
    have h1 := submitTestimonial_stored rt p form l h
    by_cases hc : trim form.clientName = [] ∨ trim form.testimonialText = []
    · simp only [hc, if_true] at h1
      exact ih _ l h1
    · simp only [hc, if_false] at h1
      obtain ⟨added, ha, hb⟩ := ih _ _ h1
      refine ⟨added ++ [newTestimonial form], by simpa using ha, ?_⟩
      intro t ht
      rcases List.mem_append.1 ht with ht | ht
      · exact hb t ht
      · rw [List.mem_singleton] at ht
        subst ht
        exact newTestimonial_fields form (fun h => hc (Or.inl h)) (fun h => hc (Or.inr h))

theorem builtinTestimonials_fields :
    ∀ t ∈ builtinTestimonials, t.name ≠ [] ∧ t.text ≠ [] ∧ t.role ≠ [] := by
  decide

/-- C15. Starting from empty storage, after the manager is constructed
(which loads and stores the defaults) and after any sequence of form
submissions, accepted or rejected, a sequence is stored in which every entry
has a non-empty name, a non-empty text and a non-empty role; it has at least
3 entries and its last three entries are the three built-in defaults in
their order. -/
theorem testimonials_stored_invariant (rt : StringRuntime) (p : TestimonialsPage)
    (hempty : p.stored = none) (forms : List TestimonialForm) :
    ∃ l : List Testimonial,
      (forms.foldl (submitTestimonial rt) (construct rt p)).stored = some l ∧
      (∀ t ∈ l, t.name ≠ [] ∧ t.text ≠ [] ∧ t.role ≠ []) ∧
      3 ≤ l.length ∧
      l.drop (l.length - 3) = builtinTestimonials := by
  have h0 : (construct rt p).stored = some builtinTestimonials := by
    simp only [construct, loadTestimonials, hempty, renderTestimonials_eq]
  obtain ⟨added, ha, hb⟩ := submissions_stored rt forms (construct rt p) builtinTestimonials h0
  have hlen : builtinTestimonials.length = 3 := rfl
  refine ⟨added ++ builtinTestimonials, ha, ?_, ?_, ?_⟩
  · intro t ht
    rcases List.mem_append.1 ht with ht | ht
    · exact hb t ht
    · exact builtinTestimonials_fields t ht
  · rw [List.length_append, hlen]; omega
  · rw [List.length_append, hlen, Nat.add_sub_cancel]
    exact List.drop_left _ _

/-- C15, from the empty page with one rejected and two accepted
submissions: five entries are stored, the defaults last. -/
theorem testimonials_stored_invariant_witness :
    ∃ l : List Testimonial,
      (sampleSubmissions.foldl (submitTestimonial asciiRuntime)
        (construct asciiRuntime emptyTestimonialsPage)).stored = some l ∧
      (∀ t ∈ l, t.name ≠ [] ∧ t.text ≠ [] ∧ t.role ≠ []) ∧
      3 ≤ l.length ∧
      l.drop (l.length - 3) = builtinTestimonials :=
  testimonials_stored_invariant asciiRuntime emptyTestimonialsPage rfl sampleSubmissions

/-! ## IEEE double rounding -/

theorem bitLengthAux_zero (fuel : Nat) : bitLengthAux fuel 0 = 0 := by
  cases fuel <;> simp [bitLengthAux]

/-- The bit length brackets a number between two powers of two. -/
theorem bitLengthAux_spec (fuel : Nat) :
    ∀ n : Nat, n ≤ fuel →
      n < 2 ^ bitLengthAux fuel n ∧ (n ≠ 0 → 2 ^ (bitLengthAux fuel n - 1) ≤ n) := by
  induction fuel with
  | zero =>
    intro n hn
    have h0 : n = 0 := by omega
    subst h0
    simp [bitLengthAux]
  | succ fuel ih =>
    intro n hn
    by_cases h0 : n = 0
    · subst h0
      simp [bitLengthAux]
    · have hhalf : n / 2 ≤ fuel := by omega
      obtain ⟨hlt, hge⟩ := ih (n / 2) hhalf
      simp only [bitLengthAux, h0, if_false, Nat.add_sub_cancel]
      refine ⟨?_, fun _ => ?_⟩
      · rw [pow_succ]
        omega
      · by_cases h2 : n / 2 = 0
        · rw [h2, bitLengthAux_zero]
          simp only [pow_zero]
          omega
        · have hb : bitLengthAux fuel (n / 2) ≠ 0 := by
            intro hb
            rw [hb] at hlt
            simp only [pow_zero] at hlt
            omega
          obtain ⟨b, hb2⟩ : ∃ b, bitLengthAux fuel (n / 2) = b + 1 :=
            ⟨bitLengthAux fuel (n / 2) - 1, by omega⟩
          have hge2 := hge h2
          rw [hb2] at hge2 ⊢
          simp only [Nat.add_sub_cancel] at hge2
          rw [pow_succ]
          omega

theorem bitLength_spec (n : Nat) (h : n ≠ 0) :
    2 ^ (bitLength n - 1) ≤ n ∧ n < 2 ^ bitLength n ∧ 1 ≤ bitLength n := by
  obtain ⟨h1, h2⟩ := bitLengthAux_spec n n (le_refl _)
  refine ⟨h2 h, h1, ?_⟩
  by_contra hb
  have hb0 : bitLength n = 0 := by omega
  unfold bitLength at hb0
  rw [hb0] at h1
  simp only [pow_zero] at h1
  omega

/-- The exponent `binade a` brackets a positive rational between two
consecutive powers of two. -/
theorem binade_spec (a : ℚ) (ha : 0 < a) :
    (2 : ℚ) ^ binade a ≤ a ∧ a < (2 : ℚ) ^ (binade a + 1) := by
  have hnum : 0 < a.num := Rat.num_pos.2 ha
  have hn0 : a.num.natAbs ≠ 0 := by
    intro h
    have := Int.natAbs_eq_zero.1 h
    omega
  obtain ⟨n1, n2, n3⟩ := bitLength_spec a.num.natAbs hn0
  obtain ⟨d1, d2, d3⟩ := bitLength_spec a.den a.den_nz
  have hnq : ((a.num.natAbs : ℕ) : ℚ) = (a.num : ℚ) := by
    have hz : ((a.num.natAbs : ℕ) : ℤ) = a.num := Int.natAbs_of_nonneg hnum.le
    calc ((a.num.natAbs : ℕ) : ℚ) = (((a.num.natAbs : ℕ) : ℤ) : ℚ) := (Int.cast_natCast _).symm
      _ = (a.num : ℚ) := by rw [hz]
  have ha_eq : a = ((a.num.natAbs : ℕ) : ℚ) / ((a.den : ℕ) : ℚ) := by
    rw [hnq]; exact (Rat.num_div_den a).symm
  have hdpos : (0 : ℚ) < ((a.den : ℕ) : ℚ) := by exact_mod_cast a.den_pos
  have n1q : ((2 : ℚ) ^ (bitLength a.num.natAbs - 1)) ≤ ((a.num.natAbs : ℕ) : ℚ) := by
    exact_mod_cast n1
  have n2q : ((a.num.natAbs : ℕ) : ℚ) < (2 : ℚ) ^ (bitLength a.num.natAbs) := by
    exact_mod_cast n2
  have d1q : ((2 : ℚ) ^ (bitLength a.den - 1)) ≤ ((a.den : ℕ) : ℚ) := by
    exact_mod_cast d1
  have d2q : ((a.den : ℕ) : ℚ) < (2 : ℚ) ^ (bitLength a.den) := by
    exact_mod_cast d2
  have hpn : ∀ k : ℕ, (0 : ℚ) < (2 : ℚ) ^ k := fun k => by positivity
  unfold binade
  split_ifs with hc
  · refine ⟨hc, ?_⟩
    -- a = n / d < 2 ^ bn / 2 ^ (bd - 1)
    have hexp : (2 : ℚ) ^ ((bitLength a.num.natAbs : ℤ) - (bitLength a.den : ℤ) + 1) =
        (2 : ℚ) ^ (bitLength a.num.natAbs) / (2 : ℚ) ^ (bitLength a.den - 1) := by
      have : ((bitLength a.num.natAbs : ℤ) - (bitLength a.den : ℤ) + 1) =
          ((bitLength a.num.natAbs : ℕ) : ℤ) - ((bitLength a.den - 1 : ℕ) : ℤ) := by
        omega
      rw [this, zpow_sub₀ (two_ne_zero), zpow_natCast, zpow_natCast]
    rw [hexp]
    conv_lhs => rw [ha_eq]
    exact div_lt_div₀ n2q d1q (hpn _).le (hpn _)
  · refine ⟨?_, ?_⟩
    · have hexp : (2 : ℚ) ^ ((bitLength a.num.natAbs : ℤ) - (bitLength a.den : ℤ) - 1) =
          (2 : ℚ) ^ (bitLength a.num.natAbs - 1) / (2 : ℚ) ^ (bitLength a.den) := by
        have : ((bitLength a.num.natAbs : ℤ) - (bitLength a.den : ℤ) - 1) =
            ((bitLength a.num.natAbs - 1 : ℕ) : ℤ) - ((bitLength a.den : ℕ) : ℤ) := by
          omega
        rw [this, zpow_sub₀ (two_ne_zero), zpow_natCast, zpow_natCast]
      rw [hexp]
      conv_rhs => rw [ha_eq]
      exact div_le_div₀ (by positivity) n1q hdpos d2q.le
    · have : (bitLength a.num.natAbs : ℤ) - (bitLength a.den : ℤ) - 1 + 1 =
          (bitLength a.num.natAbs : ℤ) - (bitLength a.den : ℤ) := by ring
      rw [this]
      exact not_le.1 hc

/-- Rounding to the nearest integer moves a number by at most one half. -/
theorem roundHalfEven_error (x : ℚ) : |(roundHalfEven x : ℚ) - x| ≤ 1 / 2 := by
  have h1 := Int.floor_le x
  have h2 := Int.lt_floor_add_one x
  rw [abs_le]
  unfold roundHalfEven
  split_ifs with c1 c2 c3
  · constructor <;> linarith
  · push_cast; constructor <;> linarith
  · have : x - (⌊x⌋ : ℚ) = 1 / 2 := le_antisymm (not_lt.1 c2) (not_lt.1 c1)
    constructor <;> linarith
  · have : x - (⌊x⌋ : ℚ) = 1 / 2 := le_antisymm (not_lt.1 c2) (not_lt.1 c1)
    push_cast; constructor <;> linarith

/-- The relative error of one rounding is at most `2 ^ (-53)`. -/
theorem binary64_relative_error (x : ℚ) : |binary64 x - x| ≤ |x| / 2 ^ 53 := by
  unfold binary64
  split_ifs with h0
  · subst h0; simp
  · have hpos : 0 < |x| := abs_pos.2 h0
    have hb := (binade_spec |x| hpos).1
    have hu : (0 : ℚ) < (2 : ℚ) ^ (binade |x| - 52) := by positivity
    have hsplit : (2 : ℚ) ^ (binade |x| - 52) = (2 : ℚ) ^ binade |x| / 2 ^ 52 := by
      rw [zpow_sub₀ (two_ne_zero)]
      norm_num
    have herr := roundHalfEven_error (x / (2 : ℚ) ^ (binade |x| - 52))
    have hx : x = x / (2 : ℚ) ^ (binade |x| - 52) * (2 : ℚ) ^ (binade |x| - 52) := by
      field_simp
    have hdiff : (roundHalfEven (x / (2 : ℚ) ^ (binade |x| - 52)) : ℚ) *
          (2 : ℚ) ^ (binade |x| - 52) - x =
        ((roundHalfEven (x / (2 : ℚ) ^ (binade |x| - 52)) : ℚ) -
          x / (2 : ℚ) ^ (binade |x| - 52)) * (2 : ℚ) ^ (binade |x| - 52) := by
      rw [sub_mul, ← hx]
    rw [hdiff, abs_mul, abs_of_pos hu]
    have h3 : |(roundHalfEven (x / (2 : ℚ) ^ (binade |x| - 52)) : ℚ) -
          x / (2 : ℚ) ^ (binade |x| - 52)| * (2 : ℚ) ^ (binade |x| - 52) ≤
        1 / 2 * (2 : ℚ) ^ (binade |x| - 52) :=
      mul_le_mul_of_nonneg_right herr hu.le
    have h4 : 1 / 2 * (2 : ℚ) ^ (binade |x| - 52) = (2 : ℚ) ^ binade |x| / 2 ^ 53 := by
      rw [hsplit]; ring
    have h5 : (2 : ℚ) ^ binade |x| / 2 ^ 53 ≤ |x| / 2 ^ 53 :=
      div_le_div_of_nonneg_right hb (by positivity)
    linarith

theorem binary64_tenth : binary64 (1 / 10) = 3602879701896397 / 36028797018963968 := by
  decide!

theorem binary64_tenth_plus_fifth :
    binary64 (binary64 (1 / 10) + binary64 (2 / 10)) = 1351079888211149 / 4503599627370496 ∧
    binary64 (3 / 10) = 5404319552844595 / 18014398509481984 := by
  decide!

/-! ## Stat counter under rounding: the update that first shows the target -/

theorem fl_bounds_fine (fl : ℚ → ℚ) (hfl : ∀ x : ℚ, |fl x - x| ≤ |x| / 1000000) (x : ℚ)
    (hx : 0 ≤ x) : x - x / 1000000 ≤ fl x ∧ fl x ≤ x + x / 1000000 := by
  have h := abs_le.1 (hfl x)
  rw [abs_of_nonneg hx] at h
  constructor <;> linarith [h.1, h.2]

/-- The increment is within three parts in a million of `target / 125`. -/
theorem stat_increment_bounds (fl : ℚ → ℚ) (hfl : ∀ x : ℚ, |fl x - x| ≤ |x| / 1000000)
    (t : ℚ) (ht : 0 < t) :
    t / 125 * (1 - 3 / 1000000) ≤ fl (t / fl (2000 / 16)) ∧
      fl (t / fl (2000 / 16)) ≤ t / 125 * (1 + 3 / 1000000) := by
  obtain ⟨hD1, hD2⟩ := fl_bounds_fine fl hfl (2000 / 16) (by norm_num)
  have hDpos : (0 : ℚ) < fl (2000 / 16) := by linarith
  have hq0 : 0 < t / fl (2000 / 16) := div_pos ht hDpos
  have hqD : t / fl (2000 / 16) * fl (2000 / 16) = t := by
    field_simp
  have hq1 : t ≤ t / fl (2000 / 16) * (2000 / 16 + 2000 / 16 / 1000000) := by
    calc t = t / fl (2000 / 16) * fl (2000 / 16) := hqD.symm
      _ ≤ t / fl (2000 / 16) * (2000 / 16 + 2000 / 16 / 1000000) :=
        mul_le_mul_of_nonneg_left hD2 hq0.le
  have hq2 : t / fl (2000 / 16) * (2000 / 16 - 2000 / 16 / 1000000) ≤ t := by
    calc t / fl (2000 / 16) * (2000 / 16 - 2000 / 16 / 1000000)
        ≤ t / fl (2000 / 16) * fl (2000 / 16) := mul_le_mul_of_nonneg_left hD1 hq0.le
      _ = t := hqD
  obtain ⟨hi1, hi2⟩ := fl_bounds_fine fl hfl (t / fl (2000 / 16)) hq0.le
  constructor <;> linarith

/-- One update keeps the running total within one part in a thousand of
the exact total, as long as the exact total is at most `126 / 125` of the
target. -/
theorem stat_step_near (fl : ℚ → ℚ) (hfl : ∀ x : ℚ, |fl x - x| ≤ |x| / 1000000)
    (t w c : ℚ) (ht : 0 < t) (hw0 : 0 ≤ w) (hw : w ≤ 126 * (t / 125))
    (hc1 : 999 / 1000 * w ≤ c) (hc2 : c ≤ 1001 / 1000 * w) :
    999 / 1000 * (w + t / 125) ≤ fl (c + fl (t / fl (2000 / 16))) ∧
      fl (c + fl (t / fl (2000 / 16))) ≤ 1001 / 1000 * (w + t / 125) := by
  obtain ⟨hi1, hi2⟩ := stat_increment_bounds fl hfl t ht
  have hc0 : 0 ≤ c := by linarith
  have hinc0 : 0 ≤ fl (t / fl (2000 / 16)) := by linarith
  obtain ⟨hs1, hs2⟩ := fl_bounds_fine fl hfl (c + fl (t / fl (2000 / 16))) (by linarith)
  constructor <;> linarith

theorem floor_lt_target (c : ℚ) (target : ℤ) (h : c < (target : ℚ)) : ⌊c⌋ < target := by
  have h1 : ((⌊c⌋ : ℤ) : ℚ) ≤ c := Int.floor_le c
  have h2 : ((⌊c⌋ : ℤ) : ℚ) < (target : ℚ) := lt_of_le_of_lt h1 h
  exact_mod_cast h2

/-- From a running total near `k * target / 125` with `124 - k` updates to
go before update 125, the counter shows numbers below the target up to
update 124, and the target at update 125 or 126. -/
theorem updateCount_near (fl : ℚ → ℚ) (hfl : ∀ x : ℚ, |fl x - x| ≤ |x| / 1000000)
    (target : ℤ) (ht : 0 < target) (m : Nat) :
    ∀ (k fuel : Nat) (c : ℚ), k + m = 124 → m + 2 ≤ fuel →
      999 / 1000 * ((k : ℚ) * ((target : ℚ) / 125)) ≤ c →
      c ≤ 1001 / 1000 * ((k : ℚ) * ((target : ℚ) / 125)) →
      ∃ shown : List ℤ,
        updateCount fl target (fl ((target : ℚ) / fl (2000 / 16))) fuel c =
          (shown ++ [target], false) ∧
        (shown.length = m ∨ shown.length = m + 1) ∧ ∀ v ∈ shown, v < target := by
  have htq : (0 : ℚ) < (target : ℚ) := by exact_mod_cast ht
  have hu : (0 : ℚ) < (target : ℚ) / 125 := by positivity
  induction m with
  | zero =>
    intro k fuel c hk hfuel hc1 hc2
    obtain ⟨f, rfl⟩ : ∃ f, fuel = f + 1 + 1 := ⟨fuel - 2, by omega⟩
    have hk124 : (k : ℚ) = 124 := by
      have : k = 124 := by omega
      rw [this]; norm_num
    rw [hk124] at hc1 hc2
    obtain ⟨s1, s2⟩ := stat_step_near fl hfl target (124 * ((target : ℚ) / 125)) c htq
      (by positivity) (by linarith) hc1 hc2
    rw [updateCount]
    by_cases hlt : fl (c + fl ((target : ℚ) / fl (2000 / 16))) < (target : ℚ)
    · simp only [hlt, if_true]
      obtain ⟨r1, r2⟩ := stat_step_near fl hfl target
        (124 * ((target : ℚ) / 125) + (target : ℚ) / 125)
        (fl (c + fl ((target : ℚ) / fl (2000 / 16)))) htq (by positivity) (by linarith) s1 s2
      have hnlt : ¬ fl (fl (c + fl ((target : ℚ) / fl (2000 / 16))) +
          fl ((target : ℚ) / fl (2000 / 16))) < (target : ℚ) := by
        rw [not_lt]
        linarith
      rw [updateCount]
      simp only [hnlt, if_false]
      refine ⟨[⌊fl (c + fl ((target : ℚ) / fl (2000 / 16)))⌋], rfl, Or.inr rfl, ?_⟩
      intro v hv
      rw [List.mem_singleton] at hv
      subst hv
      exact floor_lt_target _ _ hlt
    · simp only [hlt, if_false]
      exact ⟨[], rfl, Or.inl rfl, by simp⟩
  | succ m ih =>
    intro k fuel c hk hfuel hc1 hc2
    obtain ⟨f, rfl⟩ : ∃ f, fuel = f + 1 := ⟨fuel - 1, by omega⟩
    have hk123 : (k : ℚ) ≤ 123 := by
      have : k ≤ 123 := by omega
      exact_mod_cast this
    have hw0 : (0 : ℚ) ≤ (k : ℚ) * ((target : ℚ) / 125) := by positivity
    have hw : (k : ℚ) * ((target : ℚ) / 125) ≤ 123 * ((target : ℚ) / 125) :=
      mul_le_mul_of_nonneg_right hk123 hu.le
    obtain ⟨s1, s2⟩ := stat_step_near fl hfl target ((k : ℚ) * ((target : ℚ) / 125)) c htq
      hw0 (by linarith) hc1 hc2
    have hlt : fl (c + fl ((target : ℚ) / fl (2000 / 16))) < (target : ℚ) := by linarith
    have hnext : ((k + 1 : ℕ) : ℚ) * ((target : ℚ) / 125) =
        (k : ℚ) * ((target : ℚ) / 125) + (target : ℚ) / 125 := by
      push_cast; ring
    obtain ⟨shown, e1, e2, e3⟩ := ih (k + 1) f (fl (c + fl ((target : ℚ) / fl (2000 / 16))))
      (by omega) (by omega) (by rw [hnext]; exact s1) (by rw [hnext]; exact s2)
    rw [updateCount]
    simp only [hlt, if_true, e1]
    refine ⟨⌊fl (c + fl ((target : ℚ) / fl (2000 / 16)))⌋ :: shown, rfl, ?_, ?_⟩
    · simp only [List.length_cons]
      omega
    · intro v hv
      rcases List.mem_cons.1 hv with rfl | hv
      · exact floor_lt_target _ _ hlt
      · exact e3 v hv

/-- C13, as the code has it. With every arithmetic result rounded with a
relative error of at most one part in a million (IEEE double rounding errs by
at most `2 ^ (-53)`; exact arithmetic by nothing), for every positive integer
target the stat counter given at least 126 frames stops after showing 124 or
125 numbers strictly below the target and then the target: the target is
shown for the first time on update 125 or on update 126, whatever the size of
the target. In exact arithmetic it is update 125, the earlier updates showing
the floor of `(i + 1) * target / 125`. -/
theorem stat_counter_125_or_126 (fl : ℚ → ℚ)
    (hfl : ∀ x : ℚ, |fl x - x| ≤ |x| / 1000000) (target : ℤ) (ht : 0 < target)
    (fuel : Nat) (hfuel : 126 ≤ fuel) :
    (∃ shown : List ℤ,
      animateStat fl target fuel = (shown ++ [target], false) ∧
      (shown.length = 124 ∨ shown.length = 125) ∧ ∀ v ∈ shown, v < target) ∧
    animateStat id target fuel =
      ((List.range 124).map (fun i => ⌊((i + 1 : Nat) : ℚ) * (target : ℚ) / 125⌋) ++
        [target], false) := by
  refine ⟨?_, (stat_counter_exact_125 target ht fuel (by omega)).1⟩
  have h := updateCount_near fl hfl target ht 124 0 fuel 0 rfl (by omega) (by simp) (by simp)
  simpa only [animateStat] using h

theorem binary64_error_millionth (x : ℚ) : |binary64 x - x| ≤ |x| / 1000000 := by
  have h := binary64_relative_error x
  have h2 : |x| / 2 ^ 53 ≤ |x| / 1000000 :=
    div_le_div_of_nonneg_left (abs_nonneg x) (by norm_num) (by norm_num)
  exact le_trans h h2

/-- C13, with IEEE double rounding at target 100 and 126 frames: the
counter shows 124 or 125 numbers below 100 and then 100. -/
theorem stat_counter_125_or_126_witness :
    ∃ shown : List ℤ,
      animateStat binary64 100 126 = (shown ++ [100], false) ∧
      (shown.length = 124 ∨ shown.length = 125) ∧ ∀ v ∈ shown, v < 100 :=
  (stat_counter_125_or_126 binary64 binary64_error_millionth 100 (by norm_num) 126
    (le_refl _)).1

/-- C13 as stated fails on the arithmetic of the code: with IEEE double
rounding at target 100 the counter makes 126 updates; update 10 shows 7,
update 125 shows 99 and the target is first shown on update 126, while in
exact arithmetic update 10 shows 8 and update 125 shows 100. -/
theorem stat_counter_double_counterexample :
    (animateStat binary64 100 126).2 = false ∧
    (animateStat binary64 100 126).1.length = 126 ∧
    (animateStat binary64 100 126).1[9]? = some 7 ∧
    (animateStat binary64 100 126).1[124]? = some 99 ∧
    (animateStat binary64 100 126).1[125]? = some 100 ∧
    (animateStat id 100 126).1.length = 125 ∧
    (animateStat id 100 126).1[9]? = some 8 ∧
    (animateStat id 100 126).1[124]? = some 100 := by
  decide!

end Portfolio
